import Mathlib

/-!
Shallow embedding of the Sudoku puzzle engine from src/sudoku.c
(the game is always instantiated at ROWS = COLS = 9, so the embedding
fixes the 9 by 9 dimensions used by every call site).

A grid is the row-major list of 81 cells.  The C functions that mutate
the grid through a pointer are embedded in state-passing style: they
return the final grid next to their result.  The global random generator
(rand()) is embedded as an arbitrary stream of naturals together with a
position counter that every call threads through, and the unbounded
recursions and loops take an explicit fuel argument; 82 units of fuel
are always enough for the searches because each level of the recursion
fills one of the 81 cells.
-/

namespace Sudoku

set_option maxRecDepth 100000

/-- CellType from the source: FIXED = original puzzle cell, DYNAMIC = user cell. -/
inductive CellType where
  | FIXED
  | DYNAMIC
deriving DecidableEq

/-- Cell from the source: a value (0 = empty, 1..9) and a classification. -/
structure Cell where
  value : Nat
  type : CellType
deriving DecidableEq

/-- The 9 by 9 grid, row-major, as in struct Sudoku. -/
abbrev Grid := List Cell

/-- calloc zero-initialises: value 0 (V_None) and type 0 (FIXED). -/
def defaultCell : Cell := ⟨0, CellType.FIXED⟩

/-- Read cell i of the grid (grid[i] in the source). -/
def gget (g : Grid) (i : Nat) : Cell := g.getD i defaultCell

/-- Read the value of cell i (grid[i].value). -/
def gval (g : Grid) (i : Nat) : Nat := (gget g i).value

/-- Write only the value of cell i (grid[i].value = v), keeping its type. -/
def gsetVal (g : Grid) (i : Nat) (v : Nat) : Grid :=
  g.set i ⟨v, (gget g i).type⟩

/-- Write the whole cell i. -/
def gsetCell (g : Grid) (i : Nat) (c : Cell) : Grid := g.set i c

/-- The list of cell values of a grid. -/
def vals (g : Grid) : List Nat := g.map (fun c => c.value)

/-- Read entry i of a value list. -/
def vget (s : List Nat) (i : Nat) : Nat := s.getD i 0

/-- game_open(9, 9): a fresh zero-initialised 81-cell grid. -/
def game_open : Grid := List.replicate 81 defaultCell

/-- grid_fill: set every cell to the given value and type. -/
def grid_fill (g : Grid) (v : Nat) (t : CellType) : Grid :=
  g.map (fun _ => ⟨v, t⟩)

/-- The all-empty grid generate_new_game starts from:
game_open followed by grid_fill(_, V_None, DYNAMIC). -/
def emptyGrid : Grid := grid_fill game_open 0 CellType.DYNAMIC

/-- is_valid from the source: the row loop returns false on a column x other
than col holding val, the column loop on a row y other than row holding val,
and the box loop on a box position other than (row, col) holding val;
reaching the end of the loops yields true. -/
def is_valid (g : Grid) (row col v : Nat) : Bool :=
  ((List.range 9).all fun x =>
    decide (x = col ∨ gval g (row * 9 + x) ≠ v)) &&
  ((List.range 9).all fun y =>
    decide (y = row ∨ gval g (y * 9 + col) ≠ v)) &&
  ((List.range 3).all fun r => (List.range 3).all fun c =>
    decide ((row / 3 * 3 + r = row ∧ col / 3 * 3 + c = col) ∨
      gval g ((row / 3 * 3 + r) * 9 + (col / 3 * 3 + c)) ≠ v))

/-- is_valid restated on the list of cell values only (is_valid never reads
the type field); used to phrase the value-level development. -/
def is_validV (s : List Nat) (row col v : Nat) : Bool :=
  ((List.range 9).all fun x =>
    decide (x = col ∨ vget s (row * 9 + x) ≠ v)) &&
  ((List.range 9).all fun y =>
    decide (y = row ∨ vget s (y * 9 + col) ≠ v)) &&
  ((List.range 3).all fun r => (List.range 3).all fun c =>
    decide ((row / 3 * 3 + r = row ∧ col / 3 * 3 + c = col) ∨
      vget s ((row / 3 * 3 + r) * 9 + (col / 3 * 3 + c)) ≠ v))

/-- Validity of value v at cell index i of a value list. -/
def validAt (s : List Nat) (i v : Nat) : Bool := is_validV s (i / 9) (i % 9) v

/-- The row-major scan of count_solutions for the first empty cell
(the nested row/col loops visit indices 0, 1, ..., 80 in order). -/
def firstEmpty (g : Grid) : Option Nat :=
  (List.range 81).find? fun i => gval g i == 0

/-- First empty entry of a value list (same scan on values). -/
def feV (s : List Nat) : Option Nat :=
  (List.range 81).find? fun i => vget s i == 0

/-- The candidate values V_1 .. V_9 tried by the searches. -/
def cands : List Nat := [1, 2, 3, 4, 5, 6, 7, 8, 9]

/-- Inner candidate loop of count_solutions, state-passing.  cnt1 is the
recursive call at one unit less fuel.  For each candidate: if valid, place
it, recurse, always reset the cell, then return early once the running
total has reached the limit. -/
def cntGo (cnt1 : Grid → Nat × Grid) (row col i limit : Nat) :
    List Nat → Nat → Grid → Nat × Grid
  | [], acc, g => (acc, g)
  | v :: vs, acc, g =>
    if is_valid g row col v then
      let r := cnt1 (gsetVal g i v)
      let g2 := gsetVal r.2 i 0
      let acc2 := acc + r.1
      if limit ≤ acc2 then (acc2, g2) else cntGo cnt1 row col i limit vs acc2 g2
    else cntGo cnt1 row col i limit vs acc g

/-- count_solutions from the source, state-passing with fuel: scan for the
first empty cell; none means a completed grid, return 1; otherwise run the
candidate loop starting from a running total of 0. -/
def cntF : Nat → Grid → Nat → Nat × Grid
  | 0, g, _ => (0, g)
  | f + 1, g, limit =>
    match firstEmpty g with
    | none => (1, g)
    | some i => cntGo (fun h => cntF f h limit) (i / 9) (i % 9) i limit cands 0 g

/-- count_solutions(grid, limit): the counting result.  81 empty cells need
recursion depth 81, so fuel 82 never runs out. -/
def count_solutions (g : Grid) (limit : Nat) : Nat := (cntF 82 g limit).1

/-- The game_open + memcpy pair in has_unique_solution produces a fresh grid
with the same 81 cells; its contents are the contents of the source grid. -/
def copyGrid (g : Grid) : Grid := g

/-- has_unique_solution: run the counter with limit 2 on a copy and compare
to 1. -/
def has_unique_solution (g : Grid) : Bool :=
  count_solutions (copyGrid g) 2 == 1

/-- has_unique_solution with the caller grid threaded through: the counter
receives only the fresh copy (which is discarded by game_close), so the
caller grid comes back untouched. -/
def has_unique_solution_st (g : Grid) : Bool × Grid :=
  let copy := copyGrid g
  let r := cntF 82 copy 2
  (r.1 == 1, g)

/-- Value-level candidate loop of the counter (counting component only). -/
def csGo (cs1 : List Nat → Nat) (s : List Nat) (i limit : Nat) :
    List Nat → Nat → Nat
  | [], acc => acc
  | v :: vs, acc =>
    if validAt s i v then
      let acc2 := acc + cs1 (s.set i v)
      if limit ≤ acc2 then acc2 else csGo cs1 s i limit vs acc2
    else csGo cs1 s i limit vs acc

/-- Value-level counter: the counting component of cntF on the value list. -/
def csV : Nat → List Nat → Nat → Nat
  | 0, _, _ => 0
  | f + 1, s, limit =>
    match feV s with
    | none => 1
    | some i => csGo (fun t => csV f t limit) s i limit cands 0

/-- All completions reachable by the counter search from value list s,
same branching as csV but collecting the completed grids instead of
counting them with a limit. -/
def compsGo (comps1 : List Nat → List (List Nat)) (s : List Nat) (i : Nat) :
    List Nat → List (List Nat)
  | [] => []
  | v :: vs =>
    (if validAt s i v then comps1 (s.set i v) else []) ++ compsGo comps1 s i vs

/-- The list of completed grids the counter search visits. -/
def compsV : Nat → List Nat → List (List Nat)
  | 0, _ => []
  | f + 1, s =>
    match feV s with
    | none => [s]
    | some i => compsGo (compsV f) s i cands

/-- The swap performed by fill_grid's shuffle on numbers[i] and numbers[j]. -/
def swapL (l : List Nat) (i j : Nat) : List Nat :=
  (l.set i (l.getD j 0)).set j (l.getD i 0)

/-- fill_grid's shuffle of {V_1..V_9}: for i = 0..8 swap position i with
position rand() % 9, consuming nine entries of the random stream. -/
def shuffle9 (rng : Nat → Nat) (pos : Nat) : List Nat :=
  (List.range 9).foldl (fun l i => swapL l i (rng (pos + i) % 9)) cands

/-- Next cell of fill_grid: (col == cols-1 ? row+1 : row, (col+1) % cols). -/
def nextRow (row col : Nat) : Nat := if col = 8 then row + 1 else row
def nextCol (col : Nat) : Nat := (col + 1) % 9

/-- Candidate loop of fill_grid, state-passing; fill1 is the recursive call
at one unit less fuel.  Try each shuffled number: if valid, place it and
recurse; on success propagate the success, otherwise reset the cell and try
the next number; an exhausted list reports failure. -/
def fillGo (fill1 : Grid → Nat → Nat → Nat → Bool × Grid × Nat)
    (row col : Nat) : List Nat → Grid → Nat → Bool × Grid × Nat
  | [], g, pos => (false, g, pos)
  | v :: vs, g, pos =>
    if is_valid g row col v then
      let r := fill1 (gsetVal g (row * 9 + col) v) (nextRow row col) (nextCol col) pos
      if r.1 then r
      else fillGo fill1 row col vs (gsetVal r.2.1 (row * 9 + col) 0) r.2.2
    else fillGo fill1 row col vs g pos

/-- fill_grid from the source, state-passing with fuel: success when row
reaches 9; otherwise shuffle the nine candidates (consuming nine random
draws) and run the candidate loop. -/
def fillF (rng : Nat → Nat) : Nat → Grid → Nat → Nat → Nat → Bool × Grid × Nat
  | 0, g, _, _, pos => (false, g, pos)
  | f + 1, g, row, col, pos =>
    if row = 9 then (true, g, pos)
    else fillGo (fillF rng f) row col (shuffle9 rng pos) g (pos + 9)

/-- Loop of remove_cells: while removed < count, draw a row and a column
(two random draws), skip already-empty cells, otherwise clear the cell and
mark it DYNAMIC, keep the removal if the grid still has a unique solution
and otherwise restore the value and mark the cell FIXED.  none means the
fuel ran out before count removals succeeded (the C loop is unbounded). -/
def remove_cells_loop (rng : Nat → Nat) :
    Nat → Nat → Grid → Nat → Nat → Option (Grid × Nat)
  | 0, _, _, _, _ => none
  | f + 1, pos, g, removed, count =>
    if removed < count then
      let row := rng pos % 9
      let col := rng (pos + 1) % 9
      let idx := row * 9 + col
      let cell := gget g idx
      if cell.value = 0 then remove_cells_loop rng f (pos + 2) g removed count
      else
        let g1 := gsetCell g idx ⟨0, CellType.DYNAMIC⟩
        if has_unique_solution g1 then
          remove_cells_loop rng f (pos + 2) g1 (removed + 1) count
        else
          remove_cells_loop rng f (pos + 2) (gsetCell g1 idx ⟨cell.value, CellType.FIXED⟩)
            removed count
    else some (g, pos)

/-- Final pass of remove_cells: empty cells become DYNAMIC, the rest FIXED. -/
def reclassify (g : Grid) : Grid :=
  g.map fun c => ⟨c.value, if c.value = 0 then CellType.DYNAMIC else CellType.FIXED⟩

/-- remove_cells(puzzle_grid, solution_grid_ref, count): the loop followed by
the reclassification pass (the solution reference parameter is never read). -/
def remove_cells (rng : Nat → Nat) (fuel pos : Nat) (g : Grid) (count : Nat) :
    Option (Grid × Nat) :=
  (remove_cells_loop rng fuel pos g 0 count).map fun r => (reclassify r.1, r.2)

/-- generate_new_game(cells_to_remove): fill an all-empty scratch grid (the
boolean result of fill_grid is ignored, as in the source), copy it into the
solution grid and into the puzzle grid, then carve the puzzle grid. -/
def generate_new_game (rng : Nat → Nat) (fuel cells_to_remove : Nat) :
    Option (Grid × Grid) :=
  let r := fillF rng fuel emptyGrid 0 0 0
  let sol := r.2.1
  let puzzle0 := sol
  (remove_cells rng fuel r.2.2 puzzle0 cells_to_remove).map fun p => (p.1, sol)

/-! ### Specification-side predicates (the mathematical reading of the spec) -/

/-- Two distinct cell indices constrain each other: same row, same column,
or same 3 by 3 box. -/
def Peers (i j : Nat) : Prop :=
  i ≠ j ∧ (i / 9 = j / 9 ∨ i % 9 = j % 9 ∨ (i / 9 / 3 = j / 9 / 3 ∧ i % 9 / 3 = j % 9 / 3))

instance (i j : Nat) : Decidable (Peers i j) := by
  unfold Peers; infer_instance

/-- Every cell of the value list is within 0..9 (the CellValue range). -/
def RangeOK (s : List Nat) : Prop := ∀ i, i < 81 → vget s i ≤ 9

instance (s : List Nat) : Decidable (RangeOK s) := by
  unfold RangeOK; infer_instance

/-- No cell of the value list is empty. -/
def FullV (s : List Nat) : Prop := ∀ i, i < 81 → vget s i ≠ 0

instance (s : List Nat) : Decidable (FullV s) := by
  unfold FullV; infer_instance

/-- No two peer cells hold the same nonzero value. -/
def ConsistentV (s : List Nat) : Prop :=
  ∀ i, i < 81 → ∀ j, j < 81 → Peers i j → vget s i ≠ 0 → vget s i ≠ vget s j

instance (s : List Nat) : Decidable (ConsistentV s) := by
  unfold ConsistentV; infer_instance

/-- s is a valid completion of the partial value list p: a full consistent
grid with values 1..9 that agrees with p on every nonzero cell of p. -/
def IsCompletion (p s : List Nat) : Prop :=
  s.length = 81 ∧ FullV s ∧ RangeOK s ∧ ConsistentV s ∧
    ∀ i, i < 81 → vget p i ≠ 0 → vget s i = vget p i

instance (p s : List Nat) : Decidable (IsCompletion p s) := by
  unfold IsCompletion; infer_instance

/-- Number of empty cells of a value list. -/
def emptyCountV (s : List Nat) : Nat :=
  (List.range 81).countP fun i => vget s i == 0

/-- Number of filled cells of a value list. -/
def filledCountV (s : List Nat) : Nat :=
  (List.range 81).countP fun i => !(vget s i == 0)

/-- Row row of the grid is a permutation of 1..9. -/
def RowPerm (g : Grid) (row : Nat) : Prop :=
  ((List.range 9).map fun c => gval g (row * 9 + c)).Perm cands

/-- Column col of the grid is a permutation of 1..9. -/
def ColPerm (g : Grid) (col : Nat) : Prop :=
  ((List.range 9).map fun r => gval g (r * 9 + col)).Perm cands

/-- Box b (b = 0..8, rows 3*(b/3).., cols 3*(b%3)..) is a permutation of 1..9. -/
def BoxPerm (g : Grid) (b : Nat) : Prop :=
  ((List.range 9).map fun t =>
    gval g ((3 * (b / 3) + t / 3) * 9 + (3 * (b % 3) + t % 3))).Perm cands

/-- The classic shifted-rows complete Sudoku solution, used as the witness
that an all-empty grid always has a valid completion. -/
def solList : List Nat :=
  [1, 2, 3, 4, 5, 6, 7, 8, 9,
   4, 5, 6, 7, 8, 9, 1, 2, 3,
   7, 8, 9, 1, 2, 3, 4, 5, 6,
   2, 3, 4, 5, 6, 7, 8, 9, 1,
   5, 6, 7, 8, 9, 1, 2, 3, 4,
   8, 9, 1, 2, 3, 4, 5, 6, 7,
   3, 4, 5, 6, 7, 8, 9, 1, 2,
   6, 7, 8, 9, 1, 2, 3, 4, 5,
   9, 1, 2, 3, 4, 5, 6, 7, 8]

/-- The same complete solution as a grid of FIXED cells. -/
def solGrid : Grid := solList.map fun v => ⟨v, CellType.FIXED⟩

/-! ### Basic lemmas about grid reads and writes -/

lemma vget_vals : ∀ (g : Grid) (i : Nat), vget (vals g) i = gval g i
  | [], 0 => rfl
  | [], _ + 1 => rfl
  | _ :: _, 0 => rfl
  | _ :: g, i + 1 => vget_vals g i

lemma vals_length (g : Grid) : (vals g).length = g.length := List.length_map g _

lemma vals_gsetVal (g : Grid) (i v : Nat) :
    vals (gsetVal g i v) = (vals g).set i v := by
  unfold vals gsetVal; rw [List.map_set]

lemma vals_gsetCell (g : Grid) (i : Nat) (c : Cell) :
    vals (gsetCell g i c) = (vals g).set i c.value := by
  unfold vals gsetCell; rw [List.map_set]

lemma set_ge {α : Type} : ∀ (l : List α) (i : Nat) (a : α), l.length ≤ i → l.set i a = l
  | [], _, _, _ => rfl
  | _ :: _, 0, _, h => absurd h (by simp)
  | b :: t, i + 1, a, h =>
    congrArg (b :: ·) (set_ge t i a (Nat.le_of_succ_le_succ h))

lemma set_getD_self {α : Type} : ∀ (l : List α) (i : Nat) (d : α), l.set i (l.getD i d) = l
  | [], _, _ => rfl
  | _ :: _, 0, _ => rfl
  | b :: t, i + 1, d => congrArg (b :: ·) (set_getD_self t i d)

lemma vget_set (s : List Nat) (i j v : Nat) :
    vget (s.set i v) j = if i = j ∧ i < s.length then v else vget s j := by
  unfold vget
  rw [List.getD_eq_getElem?_getD, List.getElem?_set, List.getD_eq_getElem?_getD]
  by_cases h1 : i = j
  · subst h1
    by_cases h2 : i < s.length
    · rw [if_pos rfl, if_pos h2, if_pos ⟨rfl, h2⟩]
      rfl
    · rw [if_pos rfl, if_neg h2, if_neg (fun hc => h2 hc.2)]
      rw [List.getElem?_eq_none (Nat.le_of_not_lt h2)]
  · rw [if_neg h1, if_neg (fun hc => h1 hc.1)]

lemma gget_set (g : Grid) (i j : Nat) (c : Cell) :
    gget (g.set i c) j = if i = j ∧ i < g.length then c else gget g j := by
  unfold gget
  rw [List.getD_eq_getElem?_getD, List.getElem?_set, List.getD_eq_getElem?_getD]
  by_cases h1 : i = j
  · subst h1
    by_cases h2 : i < g.length
    · rw [if_pos rfl, if_pos h2, if_pos ⟨rfl, h2⟩]
      rfl
    · rw [if_pos rfl, if_neg h2, if_neg (fun hc => h2 hc.2)]
      rw [List.getElem?_eq_none (Nat.le_of_not_lt h2)]
  · rw [if_neg h1, if_neg (fun hc => h1 hc.1)]

/-- Resetting a placed value restores the grid (the always-backtrack step of
count_solutions): writing v into an empty cell and then writing 0 back is
the identity, types included since gsetVal preserves the type field. -/
lemma gsetVal_zero_cancel (g : Grid) (i v : Nat) (h : gval g i = 0) :
    gsetVal (gsetVal g i v) i 0 = g := by
  by_cases hl : i < g.length
  · show (gsetVal g i v).set i ⟨0, (gget (gsetVal g i v) i).type⟩ = g
    have h2 : gget (gsetVal g i v) i = ⟨v, (gget g i).type⟩ := by
      unfold gsetVal
      rw [gget_set, if_pos ⟨rfl, hl⟩]
    rw [h2]
    show (g.set i ⟨v, (gget g i).type⟩).set i ⟨0, (gget g i).type⟩ = g
    rw [List.set_set]
    have h3 : (⟨0, (gget g i).type⟩ : Cell) = g.getD i defaultCell := by
      have h4 : gget g i = ⟨gval g i, (gget g i).type⟩ := rfl
      have h5 : g.getD i defaultCell = gget g i := rfl
      rw [h5, h4, h]
    rw [h3, set_getD_self]
  · have h2 : gsetVal g i v = g := set_ge _ _ _ (Nat.le_of_not_lt hl)
    show (gsetVal g i v).set i ⟨0, (gget (gsetVal g i v) i).type⟩ = g
    rw [h2]
    exact set_ge _ _ _ (Nat.le_of_not_lt hl)

lemma vset_vget_self (s : List Nat) (i : Nat) : s.set i (vget s i) = s :=
  set_getD_self s i 0

/-! ### The first-empty-cell scan -/

lemma find?_congr {α : Type} (p q : α → Bool) :
    ∀ (l : List α), (∀ a, a ∈ l → p a = q a) → l.find? p = l.find? q
  | [], _ => rfl
  | a :: t, h => by
    have ha : p a = q a := h a (List.mem_cons_self a t)
    simp only [List.find?_cons]
    rw [ha]
    cases q a
    · exact find?_congr p q t fun b hb => h b (List.mem_cons_of_mem a hb)
    · rfl

lemma firstEmpty_eq_feV (g : Grid) : firstEmpty g = feV (vals g) := by
  unfold firstEmpty feV
  exact find?_congr _ _ _ (fun a _ => by rw [vget_vals])

lemma feV_none_iff (s : List Nat) : feV s = none ↔ ∀ i, i < 81 → vget s i ≠ 0 := by
  unfold feV
  rw [List.find?_eq_none]
  constructor
  · intro h i hi
    have := h i (List.mem_range.mpr hi)
    simpa using this
  · intro h i hi
    have := h i (List.mem_range.mp hi)
    simpa using this

lemma feV_some_lt {s : List Nat} {i : Nat} (h : feV s = some i) : i < 81 :=
  List.mem_range.mp (List.mem_of_find?_eq_some h)

lemma feV_some_val {s : List Nat} {i : Nat} (h : feV s = some i) : vget s i = 0 := by
  have := List.find?_some h
  simpa using this

/-! ### Counting empty cells -/

lemma countP_sub_one {α : Type} (p q : α → Bool) :
    ∀ (l : List α) (x : α), l.Nodup → x ∈ l →
      (∀ a, a ∈ l → a ≠ x → p a = q a) → p x = true → q x = false →
      l.countP p = l.countP q + 1
  | [], x, _, hx, _, _, _ => absurd hx (List.not_mem_nil x)
  | a :: t, x, hnd, hx, hpq, hp, hq => by
    rcases List.mem_cons.mp hx with rfl | hxt
    · have hxt : x ∉ t := (List.nodup_cons.mp hnd).1
      have ht : t.countP p = t.countP q := by
        apply List.countP_congr
        intro b hb
        rw [hpq b (List.mem_cons_of_mem x hb) (fun hbx => hxt (hbx ▸ hb))]
      rw [List.countP_cons, List.countP_cons, hp, hq, ht]
      simp [Nat.add_assoc, Nat.add_comm]
    · have ha : p a = q a := by
        apply hpq a (List.mem_cons_self a t)
        intro hax
        exact (List.nodup_cons.mp hnd).1 (hax ▸ hxt)
      have := countP_sub_one p q t x (List.nodup_cons.mp hnd).2 hxt
        (fun b hb => hpq b (List.mem_cons_of_mem a hb)) hp hq
      rw [List.countP_cons, List.countP_cons, this, ha]
      cases q a <;> simp

lemma emptyCountV_le (s : List Nat) : emptyCountV s ≤ 81 := by
  have := List.countP_le_length (l := List.range 81) (fun i => vget s i == 0)
  simpa [emptyCountV] using this

lemma emptyCountV_set_nonzero {s : List Nat} {i v : Nat}
    (h1 : i < 81) (h2 : i < s.length) (h0 : vget s i = 0) (hv : v ≠ 0) :
    emptyCountV (s.set i v) + 1 = emptyCountV s := by
  unfold emptyCountV
  have := countP_sub_one (fun j => vget s j == 0) (fun j => vget (s.set i v) j == 0)
    (List.range 81) i (List.nodup_range 81) (List.mem_range.mpr h1)
    (fun a _ hai => by
      simp only [vget_set]
      rw [if_neg (fun hc => hai hc.1.symm)])
    (by simpa using h0)
    (by
      show (vget (s.set i v) i == 0) = false
      rw [vget_set, if_pos (⟨rfl, h2⟩ : i = i ∧ i < s.length)]
      simpa using hv)
  omega

lemma emptyCountV_set_zero {s : List Nat} {i : Nat}
    (h1 : i < 81) (h2 : i < s.length) (h0 : vget s i ≠ 0) :
    emptyCountV (s.set i 0) = emptyCountV s + 1 := by
  unfold emptyCountV
  have := countP_sub_one (fun j => vget (s.set i 0) j == 0) (fun j => vget s j == 0)
    (List.range 81) i (List.nodup_range 81) (List.mem_range.mpr h1)
    (fun a _ hai => by
      simp only [vget_set]
      rw [if_neg (fun hc => hai hc.1.symm)])
    (by
      show (vget (s.set i 0) i == 0) = true
      rw [vget_set, if_pos (⟨rfl, h2⟩ : i = i ∧ i < s.length)]
      rfl)
    (by simpa using h0)
  omega

lemma eq_of_vget {s t : List Nat} (hs : s.length = 81) (ht : t.length = 81)
    (h : ∀ i, i < 81 → vget s i = vget t i) : s = t := by
  apply List.ext_getElem (hs.trans ht.symm)
  intro i hi1 hi2
  have hv := h i (hs ▸ hi1)
  unfold vget at hv
  rwa [List.getD_eq_getElem _ _ hi1, List.getD_eq_getElem _ _ hi2] at hv

/-! ### Characterisation of is_valid -/

lemma is_valid_eq_V (g : Grid) (row col v : Nat) :
    is_valid g row col v = is_validV (vals g) row col v := by
  unfold is_valid is_validV
  simp only [vget_vals]

/-- The three loops of is_valid reject exactly the peers of (row, col). -/
lemma is_validV_iff {s : List Nat} {row col v : Nat} (hr : row < 9) (hc : col < 9) :
    is_validV s row col v = true ↔
      ∀ j, j < 81 → Peers (row * 9 + col) j → vget s j ≠ v := by
  unfold is_validV
  rw [Bool.and_eq_true, Bool.and_eq_true]
  simp only [List.all_eq_true, List.mem_range, decide_eq_true_eq]
  constructor
  · rintro ⟨⟨hrow, hcol⟩, hbox⟩ j hj hpeer hv
    obtain ⟨hne, hcase⟩ := hpeer
    rcases hcase with hsr | hsc | hsb
    · have hx := hrow (j % 9) (Nat.mod_lt _ (by omega))
      have e1 : row * 9 + j % 9 = j := by omega
      rw [e1] at hx
      rcases hx with hx | hx
      · omega
      · exact hx hv
    · have hy := hcol (j / 9) (by omega)
      have e1 : j / 9 * 9 + col = j := by omega
      rw [e1] at hy
      rcases hy with hy | hy
      · omega
      · exact hy hv
    · have hb := hbox (j / 9 - row / 3 * 3) (by omega) (j % 9 - col / 3 * 3) (by omega)
      have e1 : row / 3 * 3 + (j / 9 - row / 3 * 3) = j / 9 := by omega
      have e2 : col / 3 * 3 + (j % 9 - col / 3 * 3) = j % 9 := by omega
      rw [e1, e2] at hb
      have e3 : j / 9 * 9 + j % 9 = j := by omega
      rw [e3] at hb
      rcases hb with hb | hb
      · omega
      · exact hb hv
  · intro h
    refine ⟨⟨?_, ?_⟩, ?_⟩
    · intro x hx
      by_cases hxc : x = col
      · exact Or.inl hxc
      · refine Or.inr (h (row * 9 + x) (by omega) ⟨by omega, Or.inl (by omega)⟩)
    · intro y hy
      by_cases hyr : y = row
      · exact Or.inl hyr
      · refine Or.inr (h (y * 9 + col) (by omega) ⟨by omega, Or.inr (Or.inl (by omega))⟩)
    · intro r hr3 c hc3
      by_cases hb : row / 3 * 3 + r = row ∧ col / 3 * 3 + c = col
      · exact Or.inl hb
      · refine Or.inr (h ((row / 3 * 3 + r) * 9 + (col / 3 * 3 + c)) (by omega)
          ⟨by omega, Or.inr (Or.inr ⟨by omega, by omega⟩)⟩)

/-- De Morgan reading of is_valid: it returns false exactly on an occurrence
of the value elsewhere in the row, the column, or the box. -/
lemma is_valid_false_iff (g : Grid) (row col v : Nat) :
    is_valid g row col v = false ↔
      (∃ x, x < 9 ∧ x ≠ col ∧ gval g (row * 9 + x) = v) ∨
      (∃ y, y < 9 ∧ y ≠ row ∧ gval g (y * 9 + col) = v) ∨
      (∃ r c, r < 3 ∧ c < 3 ∧ ¬(row / 3 * 3 + r = row ∧ col / 3 * 3 + c = col) ∧
        gval g ((row / 3 * 3 + r) * 9 + (col / 3 * 3 + c)) = v) := by
  have hb : is_valid g row col v = false ↔ ¬(is_valid g row col v = true) := by
    cases h : is_valid g row col v <;> simp
  rw [hb]
  unfold is_valid
  rw [Bool.and_eq_true, Bool.and_eq_true]
  simp only [List.all_eq_true, List.mem_range, decide_eq_true_eq]
  constructor
  · intro hne
    by_cases h1 : ∃ x, x < 9 ∧ x ≠ col ∧ gval g (row * 9 + x) = v
    · exact Or.inl h1
    by_cases h2 : ∃ y, y < 9 ∧ y ≠ row ∧ gval g (y * 9 + col) = v
    · exact Or.inr (Or.inl h2)
    by_cases h3 : ∃ r c, r < 3 ∧ c < 3 ∧ ¬(row / 3 * 3 + r = row ∧ col / 3 * 3 + c = col) ∧
        gval g ((row / 3 * 3 + r) * 9 + (col / 3 * 3 + c)) = v
    · exact Or.inr (Or.inr h3)
    exfalso
    apply hne
    refine ⟨⟨?_, ?_⟩, ?_⟩
    · intro x hx
      by_cases hxc : x = col
      · exact Or.inl hxc
      · exact Or.inr fun hv => h1 ⟨x, hx, hxc, hv⟩
    · intro y hy
      by_cases hyr : y = row
      · exact Or.inl hyr
      · exact Or.inr fun hv => h2 ⟨y, hy, hyr, hv⟩
    · intro r hr3 c hc3
      by_cases hrc : row / 3 * 3 + r = row ∧ col / 3 * 3 + c = col
      · exact Or.inl hrc
      · exact Or.inr fun hv => h3 ⟨r, c, hr3, hc3, hrc, hv⟩
  · rintro (⟨x, hx, hxc, hv⟩ | ⟨y, hy, hyr, hv⟩ | ⟨r, c, hr3, hc3, hrc, hv⟩) ⟨⟨hA, hB⟩, hC⟩
    · rcases hA x hx with h | h
      · exact hxc h
      · exact h hv
    · rcases hB y hy with h | h
      · exact hyr h
      · exact h hv
    · rcases hC r hr3 c hc3 with h | h
      · exact hrc h
      · exact h hv

/-! ### C4 and C10: the constraint checker -/

/-- C4: for every 9x9 grid, row and col in [0,9) and value, is_valid returns
false iff the value occurs in the row at another column, in the column at
another row, or in the box at another position (box origin 3*(row/3),
3*(col/3) by floor division); in particular it returns true when the only
occurrence of the value is the target cell itself.  The embedded is_valid
is a pure function of the grid, so it cannot mutate it. -/
theorem is_valid_characterization (g : Grid) (row col v : Nat)
    (hr : row < 9) (hc : col < 9) :
    (is_valid g row col v = false ↔
      (∃ x, x < 9 ∧ x ≠ col ∧ gval g (row * 9 + x) = v) ∨
      (∃ y, y < 9 ∧ y ≠ row ∧ gval g (y * 9 + col) = v) ∨
      (∃ r c, r < 3 ∧ c < 3 ∧ ¬(3 * (row / 3) + r = row ∧ 3 * (col / 3) + c = col) ∧
        gval g ((3 * (row / 3) + r) * 9 + (3 * (col / 3) + c)) = v)) ∧
    ((∀ i, i < 81 → (gval g i = v ↔ i = row * 9 + col)) → is_valid g row col v = true) := by
  have hm : ∀ a : Nat, 3 * (a / 3) = a / 3 * 3 := fun a => Nat.mul_comm 3 (a / 3)
  constructor
  · simp only [hm]
    exact is_valid_false_iff g row col v
  · intro h
    cases hiv : is_valid g row col v
    · exfalso
      rcases (is_valid_false_iff g row col v).mp hiv with
        ⟨x, hx, hxc, hv⟩ | ⟨y, hy, hyr, hv⟩ | ⟨r, c, hr3, hc3, hrc, hv⟩
      · have := (h (row * 9 + x) (by omega)).mp hv
        omega
      · have := (h (y * 9 + col) (by omega)).mp hv
        omega
      · have := (h ((row / 3 * 3 + r) * 9 + (col / 3 * 3 + c)) (by omega)).mp hv
        omega
    · rfl

theorem is_valid_characterization_witness :
    is_valid (gsetCell emptyGrid 0 ⟨1, CellType.FIXED⟩) 0 0 1 = true :=
  (is_valid_characterization (gsetCell emptyGrid 0 ⟨1, CellType.FIXED⟩) 0 0 1
    (by decide) (by decide)).2 (by decide)

/-- C10: is_valid does not special-case the empty marker 0: whenever some
other position in the row, column or box holds an empty cell, testing the
value V_None = 0 returns false. -/
theorem is_valid_empty_marker (g : Grid) (row col : Nat)
    (h : (∃ x, x < 9 ∧ x ≠ col ∧ gval g (row * 9 + x) = 0) ∨
         (∃ y, y < 9 ∧ y ≠ row ∧ gval g (y * 9 + col) = 0) ∨
         (∃ r c, r < 3 ∧ c < 3 ∧ ¬(3 * (row / 3) + r = row ∧ 3 * (col / 3) + c = col) ∧
           gval g ((3 * (row / 3) + r) * 9 + (3 * (col / 3) + c)) = 0)) :
    is_valid g row col 0 = false := by
  have hm : ∀ a : Nat, 3 * (a / 3) = a / 3 * 3 := fun a => Nat.mul_comm 3 (a / 3)
  rw [is_valid_false_iff]
  simp only [hm] at h
  exact h

theorem is_valid_empty_marker_witness : is_valid emptyGrid 0 0 0 = false :=
  is_valid_empty_marker emptyGrid 0 0 (Or.inl ⟨1, by decide, by decide, by decide⟩)

/-! ### The counter is pure on values and restores its grid -/

lemma cntGo_eq (f limit i : Nat)
    (hf : ∀ h : Grid, cntF f h limit = (csV f (vals h) limit, h)) :
    ∀ (vs : List Nat) (acc : Nat) (g : Grid), gval g i = 0 →
      cntGo (fun h => cntF f h limit) (i / 9) (i % 9) i limit vs acc g =
        (csGo (fun t => csV f t limit) (vals g) i limit vs acc, g) := by
  intro vs
  induction vs with
  | nil => intro acc g h0; rfl
  | cons v vs ih =>
    intro acc g h0
    have hva : validAt (vals g) i v = is_valid g (i / 9) (i % 9) v := by
      unfold validAt
      rw [is_valid_eq_V]
    by_cases hv : is_valid g (i / 9) (i % 9) v
    · simp only [cntGo, csGo, hva, if_pos hv, hf (gsetVal g i v), vals_gsetVal,
        gsetVal_zero_cancel g i v h0]
      by_cases hl : limit ≤ acc + csV f ((vals g).set i v) limit
      · simp only [if_pos hl]
      · simp only [if_neg hl]
        exact ih _ g h0
    · simp only [cntGo, csGo, hva, if_neg hv]
      exact ih acc g h0

lemma cntF_eq : ∀ (f : Nat) (g : Grid) (limit : Nat),
    cntF f g limit = (csV f (vals g) limit, g)
  | 0, _, _ => rfl
  | f + 1, g, limit => by
    simp only [cntF, csV, firstEmpty_eq_feV g]
    cases hfe : feV (vals g) with
    | none => rfl
    | some i =>
      have h0 : gval g i = 0 := by
        rw [← vget_vals]
        exact feV_some_val hfe
      exact cntGo_eq f limit i (fun h => cntF_eq f h limit) cands 0 g h0

/-- C8: the counter always restores the grid it runs on: every cell
placement is reset before returning, on every return path, so the grid
coming back out of cntF (the state-passing embedding of count_solutions)
is the grid that went in, for every fuel, grid and limit. -/
theorem count_solutions_roundtrip (fuel : Nat) (g : Grid) (limit : Nat) :
    (cntF fuel g limit).2 = g := by
  rw [cntF_eq]

/-- C7: has_unique_solution never mutates the caller grid: it runs the
counter on the copy only, the caller grid is returned unchanged, and even
the copy comes back from the counter with its entry contents. -/
theorem has_unique_solution_nondestructive (g : Grid) :
    (has_unique_solution_st g).2 = g ∧
    (cntF 82 (copyGrid g) 2).2 = copyGrid g ∧
    (has_unique_solution_st g).1 = has_unique_solution g := by
  refine ⟨rfl, ?_, rfl⟩
  rw [cntF_eq]

/-! ### C9: the early exit does not truncate to the limit -/

/-- A grid on which count_solutions(_, 2) returns 3: at the first empty
cell, candidate 1 yields exactly one completion and candidate 2 yields two
(the second of which triggers the early exit), so the accumulated total 3
is returned untruncated. -/
def c9List : List Nat :=
  [0, 0, 4, 5, 6, 7, 8, 9, 9,
   9, 9, 9, 9, 9, 9, 9, 9, 9,
   9, 9, 9, 9, 9, 9, 9, 9, 9,
   3, 2, 9, 9, 9, 9, 9, 9, 9,
   9, 9, 9, 9, 9, 9, 9, 9, 9,
   9, 9, 9, 9, 9, 9, 9, 9, 9,
   9, 9, 9, 9, 9, 9, 9, 9, 9,
   9, 9, 9, 9, 9, 9, 9, 9, 9,
   9, 9, 9, 9, 9, 9, 9, 9, 9]

def c9Grid : Grid := c9List.map fun v => ⟨v, CellType.FIXED⟩

/-- C9: the return value of count_solutions is not capped at the limit:
there is a grid on which count_solutions(_, 2) returns 3 > 2. -/
theorem count_solutions_exceeds_limit :
    2 < count_solutions c9Grid 2 ∧ count_solutions c9Grid 2 = 3 := by
  constructor <;> decide

/-! ### Completions and the counter as an oracle -/

lemma peers_symm {i j : Nat} (h : Peers i j) : Peers j i := by
  unfold Peers at h ⊢
  omega

lemma validAt_iff {s : List Nat} {i v : Nat} (hi : i < 81) :
    validAt s i v = true ↔ ∀ j, j < 81 → Peers i j → vget s j ≠ v := by
  unfold validAt
  have hr : i / 9 < 9 := by omega
  have hc : i % 9 < 9 := by omega
  have he : i / 9 * 9 + i % 9 = i := by omega
  rw [is_validV_iff hr hc, he]

lemma mem_cands_iff {v : Nat} : v ∈ cands ↔ 1 ≤ v ∧ v ≤ 9 := by
  unfold cands
  simp only [List.mem_cons, List.not_mem_nil, or_false]
  omega

lemma cands_nodup : cands.Nodup := by decide

/-- Placing a valid candidate at the first empty cell preserves the
well-formedness facts the oracle argument tracks, and strictly decreases
the number of empty cells. -/
lemma branch_setup {s : List Nat} {i v : Nat}
    (hlen : s.length = 81) (hrange : RangeOK s) (hcons : ConsistentV s)
    (hfe : feV s = some i) (hv1 : 1 ≤ v) (hv9 : v ≤ 9)
    (hva : validAt s i v = true) :
    (s.set i v).length = 81 ∧ RangeOK (s.set i v) ∧ ConsistentV (s.set i v) ∧
      emptyCountV (s.set i v) < emptyCountV s := by
  have hi81 : i < 81 := feV_some_lt hfe
  have hi0 : vget s i = 0 := feV_some_val hfe
  have hilen : i < s.length := by omega
  have hpeer := (validAt_iff hi81).mp hva
  refine ⟨by simp [hlen], ?_, ?_, ?_⟩
  · intro j hj
    rw [vget_set]
    split
    · omega
    · exact hrange j hj
  · intro a ha b hb hab hne
    have hab1 : a ≠ b := hab.1
    by_cases hai : a = i
    · subst hai
      have hsa : vget (s.set a v) a = v := by
        rw [vget_set, if_pos ⟨rfl, hilen⟩]
      have hsb : vget (s.set a v) b = vget s b := by
        rw [vget_set]
        exact if_neg fun hc2 => hab1 hc2.1
      rw [hsa, hsb]
      exact fun he => hpeer b hb hab he.symm
    · have hsa : vget (s.set i v) a = vget s a := by
        rw [vget_set]
        exact if_neg fun hc2 => hai hc2.1.symm
      by_cases hbi : b = i
      · subst hbi
        have hsb : vget (s.set b v) b = v := by
          rw [vget_set, if_pos ⟨rfl, hilen⟩]
        rw [hsa, hsb]
        rw [hsa] at hne
        intro he
        exact hpeer a ha (peers_symm hab) (he ▸ rfl)
      · have hsb : vget (s.set i v) b = vget s b := by
          rw [vget_set]
          exact if_neg fun hc2 => hbi hc2.1.symm
        rw [hsa, hsb]
        rw [hsa] at hne
        exact hcons a ha b hb hab hne
  · have h2 := emptyCountV_set_nonzero hi81 hilen hi0 (Nat.one_le_iff_ne_zero.mp hv1)
    omega

/-- A completion of s determines a valid candidate at the first empty cell
of s and is a completion of the grid extended with that candidate. -/
lemma completion_at_empty {s t : List Nat} {i : Nat}
    (hlen : s.length = 81) (hfe : feV s = some i) (hc : IsCompletion s t) :
    1 ≤ vget t i ∧ vget t i ≤ 9 ∧ validAt s i (vget t i) = true ∧
      IsCompletion (s.set i (vget t i)) t := by
  obtain ⟨htlen, htfull, htrange, htcons, hagree⟩ := hc
  have hi81 := feV_some_lt hfe
  have hi0 := feV_some_val hfe
  have hilen : i < s.length := by omega
  have hv1 : 1 ≤ vget t i := Nat.one_le_iff_ne_zero.mpr (htfull i hi81)
  have hv9 : vget t i ≤ 9 := htrange i hi81
  have hva : validAt s i (vget t i) = true := by
    rw [validAt_iff hi81]
    intro j hj hpeer hjv
    by_cases hj0 : vget s j = 0
    · rw [hj0] at hjv
      omega
    · have hag : vget t j = vget s j := hagree j hj hj0
      have hne := htcons i hi81 j hj hpeer (by omega)
      rw [hag] at hne
      exact hne hjv.symm
  refine ⟨hv1, hv9, hva, htlen, htfull, htrange, htcons, ?_⟩
  intro j hj hjne
  by_cases hji : i = j
  · subst hji
    rw [vget_set, if_pos ⟨rfl, hilen⟩]
  · have hsj : vget (s.set i (vget t i)) j = vget s j := by
      rw [vget_set]
      exact if_neg fun hc2 => hji hc2.1
    rw [hsj]
    rw [hsj] at hjne
    exact hagree j hj hjne

/-- Conversely, a completion of the extended grid is a completion of s. -/
lemma completion_of_branch {s t : List Nat} {i v : Nat}
    (hfe : feV s = some i)
    (hc : IsCompletion (s.set i v) t) : IsCompletion s t := by
  obtain ⟨htlen, htfull, htrange, htcons, hagree⟩ := hc
  have hi0 := feV_some_val hfe
  refine ⟨htlen, htfull, htrange, htcons, ?_⟩
  intro j hj hj0
  have hji : j ≠ i := fun h => hj0 (h ▸ hi0)
  have hsj : vget (s.set i v) j = vget s j := by
    rw [vget_set]
    exact if_neg fun hc2 => hji hc2.1.symm
  have := hagree j hj (by rw [hsj]; exact hj0)
  rw [hsj] at this
  exact this

/-- A completion of the branch at value v holds v at the branch cell. -/
lemma completion_branch_val {s t : List Nat} {i v : Nat}
    (hlen : s.length = 81) (hi81 : i < 81) (hv1 : 1 ≤ v)
    (hc : IsCompletion (s.set i v) t) : vget t i = v := by
  have hsi : vget (s.set i v) i = v := by
    rw [vget_set, if_pos ⟨rfl, by omega⟩]
  have := hc.2.2.2.2 i hi81 (by rw [hsi]; omega)
  rw [hsi] at this
  exact this

lemma compsGo_mem (comps1 : List Nat → List (List Nat)) (s : List Nat) (i : Nat) :
    ∀ (vs : List Nat) (t : List Nat),
      t ∈ compsGo comps1 s i vs ↔
        ∃ v, v ∈ vs ∧ validAt s i v = true ∧ t ∈ comps1 (s.set i v) := by
  intro vs
  induction vs with
  | nil =>
    intro t
    simp [compsGo]
  | cons v vs ih =>
    intro t
    rw [show compsGo comps1 s i (v :: vs) =
      (if validAt s i v = true then comps1 (s.set i v) else []) ++ compsGo comps1 s i vs from rfl]
    cases hva : validAt s i v with
    | true =>
      rw [if_pos rfl, List.mem_append, ih]
      constructor
      · rintro (h | ⟨w, hw, hwv, hwt⟩)
        · exact ⟨v, List.mem_cons_self v vs, hva, h⟩
        · exact ⟨w, List.mem_cons_of_mem v hw, hwv, hwt⟩
      · rintro ⟨w, hw, hwv, hwt⟩
        rcases List.mem_cons.mp hw with rfl | hw2
        · exact Or.inl hwt
        · exact Or.inr ⟨w, hw2, hwv, hwt⟩
    | false =>
      rw [if_neg (by simp), List.nil_append, ih]
      constructor
      · rintro ⟨w, hw, hwv, hwt⟩
        exact ⟨w, List.mem_cons_of_mem v hw, hwv, hwt⟩
      · rintro ⟨w, hw, hwv, hwt⟩
        rcases List.mem_cons.mp hw with rfl | hw2
        · rw [hva] at hwv
          exact absurd hwv (by simp)
        · exact ⟨w, hw2, hwv, hwt⟩

lemma compsGo_nodup (f : Nat) (s : List Nat) (i : Nat)
    (hlen : s.length = 81) (hi81 : i < 81)
    (hnd1 : ∀ v, 1 ≤ v → v ≤ 9 → validAt s i v = true → (compsV f (s.set i v)).Nodup)
    (hmem : ∀ v t, 1 ≤ v → v ≤ 9 → validAt s i v = true →
      t ∈ compsV f (s.set i v) → IsCompletion (s.set i v) t) :
    ∀ vs : List Nat, vs.Nodup → (∀ v, v ∈ vs → 1 ≤ v ∧ v ≤ 9) →
      (compsGo (compsV f) s i vs).Nodup := by
  intro vs
  induction vs with
  | nil => intro _ _; exact List.nodup_nil
  | cons v vs ih =>
    intro hnd hb
    rw [show compsGo (compsV f) s i (v :: vs) =
      (if validAt s i v = true then compsV f (s.set i v) else []) ++
        compsGo (compsV f) s i vs from rfl]
    rw [List.nodup_append]
    obtain ⟨hv1, hv9⟩ := hb v (List.mem_cons_self v vs)
    refine ⟨?_, ih (List.nodup_cons.mp hnd).2 (fun w hw => hb w (List.mem_cons_of_mem v hw)), ?_⟩
    · by_cases hva : validAt s i v = true
      · rw [if_pos hva]
        exact hnd1 v hv1 hv9 hva
      · rw [if_neg hva]
        exact List.nodup_nil
    · intro t ht1 ht2
      by_cases hva : validAt s i v = true
      · rw [if_pos hva] at ht1
        have htv : vget t i = v :=
          completion_branch_val hlen hi81 hv1 (hmem v t hv1 hv9 hva ht1)
        obtain ⟨w, hw, hwv, hwt⟩ := (compsGo_mem (compsV f) s i vs t).mp ht2
        obtain ⟨hw1, hw9⟩ := hb w (List.mem_cons_of_mem v hw)
        have htw : vget t i = w :=
          completion_branch_val hlen hi81 hw1 (hmem w t hw1 hw9 hwv hwt)
        have hvw : v = w := htv ▸ htw
        exact (List.nodup_cons.mp hnd).1 (hvw ▸ hw)
      · rw [if_neg hva] at ht1
        exact absurd ht1 (List.not_mem_nil t)

/-- The completions list the counter search visits is exactly the set of
valid completions, without duplicates. -/
lemma comps_sound : ∀ (f : Nat) (s : List Nat),
    s.length = 81 → RangeOK s → ConsistentV s → emptyCountV s < f →
    (∀ t, t ∈ compsV f s ↔ IsCompletion s t) ∧ (compsV f s).Nodup
  | 0, _, _, _, _, hf => absurd hf (by omega)
  | f + 1, s, hlen, hrange, hcons, hf => by
    rw [show compsV (f + 1) s = (match feV s with
      | none => [s]
      | some i => compsGo (compsV f) s i cands) from rfl]
    cases hfe : feV s with
    | none =>
      constructor
      · intro t
        constructor
        · intro ht
          have hts : t = s := by simpa using ht
          rw [hts]
          exact ⟨hlen, (feV_none_iff s).mp hfe, hrange, hcons, fun i hi _ => rfl⟩
        · intro hc
          have hts : t = s := eq_of_vget hc.1 hlen
            (fun i hi => hc.2.2.2.2 i hi ((feV_none_iff s).mp hfe i hi))
          simp [hts]
      · simp
    | some i =>
      have hi81 := feV_some_lt hfe
      have hIH : ∀ v, 1 ≤ v → v ≤ 9 → validAt s i v = true →
          (∀ t, t ∈ compsV f (s.set i v) ↔ IsCompletion (s.set i v) t) ∧
            (compsV f (s.set i v)).Nodup := by
        intro v h1 h9 hva
        obtain ⟨a, b, c, d⟩ := branch_setup hlen hrange hcons hfe h1 h9 hva
        exact comps_sound f (s.set i v) a b c (by omega)
      constructor
      · intro t
        rw [compsGo_mem]
        constructor
        · rintro ⟨v, hvc, hva, hvt⟩
          obtain ⟨h1, h9⟩ := mem_cands_iff.mp hvc
          exact completion_of_branch hfe (((hIH v h1 h9 hva).1 t).mp hvt)
        · intro hc
          obtain ⟨h1, h9, hva, hcb⟩ := completion_at_empty hlen hfe hc
          exact ⟨vget t i, mem_cands_iff.mpr ⟨h1, h9⟩, hva, ((hIH _ h1 h9 hva).1 t).mpr hcb⟩
      · apply compsGo_nodup f s i hlen hi81
        · intro v h1 h9 hva
          exact (hIH v h1 h9 hva).2
        · intro v t h1 h9 hva ht
          exact ((hIH v h1 h9 hva).1 t).mp ht
        · exact cands_nodup
        · intro v hv
          exact mem_cands_iff.mp hv

lemma csGo_le (f limit i : Nat) (s : List Nat)
    (hIH : ∀ v, 1 ≤ v → v ≤ 9 → validAt s i v = true →
      csV f (s.set i v) limit ≤ (compsV f (s.set i v)).length ∧
        (csV f (s.set i v) limit < limit →
          csV f (s.set i v) limit = (compsV f (s.set i v)).length)) :
    ∀ (vs : List Nat) (acc : Nat), (∀ v, v ∈ vs → 1 ≤ v ∧ v ≤ 9) →
      csGo (fun t => csV f t limit) s i limit vs acc ≤
          acc + (compsGo (compsV f) s i vs).length ∧
        (csGo (fun t => csV f t limit) s i limit vs acc < limit →
          csGo (fun t => csV f t limit) s i limit vs acc =
            acc + (compsGo (compsV f) s i vs).length) := by
  intro vs
  induction vs with
  | nil =>
    intro acc _
    exact ⟨by simp [csGo, compsGo], fun _ => by simp [csGo, compsGo]⟩
  | cons v vs ih =>
    intro acc hb
    obtain ⟨hv1, hv9⟩ := hb v (List.mem_cons_self v vs)
    have hrest := fun acc2 => ih acc2 (fun w hw => hb w (List.mem_cons_of_mem v hw))
    rw [show csGo (fun t => csV f t limit) s i limit (v :: vs) acc =
      (if validAt s i v = true then
        (if limit ≤ acc + csV f (s.set i v) limit then acc + csV f (s.set i v) limit
         else csGo (fun t => csV f t limit) s i limit vs (acc + csV f (s.set i v) limit))
       else csGo (fun t => csV f t limit) s i limit vs acc) from rfl]
    rw [show compsGo (compsV f) s i (v :: vs) =
      (if validAt s i v = true then compsV f (s.set i v) else []) ++
        compsGo (compsV f) s i vs from rfl]
    by_cases hva : validAt s i v = true
    · rw [if_pos hva, if_pos hva, List.length_append]
      obtain ⟨hle, heq⟩ := hIH v hv1 hv9 hva
      by_cases hl : limit ≤ acc + csV f (s.set i v) limit
      · rw [if_pos hl]
        refine ⟨by omega, fun h => by omega⟩
      · rw [if_neg hl]
        obtain ⟨h1, h2⟩ := hrest (acc + csV f (s.set i v) limit)
        have hn1 : csV f (s.set i v) limit = (compsV f (s.set i v)).length := heq (by omega)
        constructor
        · omega
        · intro h
          have h3 := h2 h
          omega
    · rw [if_neg hva, if_neg hva, List.nil_append]
      exact hrest acc

/-- The limited count is bounded by the number of completions and agrees
with it whenever the early exit did not fire. -/
lemma csV_le : ∀ (f : Nat) (s : List Nat) (limit : Nat),
    s.length = 81 → RangeOK s → ConsistentV s → emptyCountV s < f →
    csV f s limit ≤ (compsV f s).length ∧
      (csV f s limit < limit → csV f s limit = (compsV f s).length)
  | 0, _, _, _, _, _, hf => absurd hf (by omega)
  | f + 1, s, limit, hlen, hrange, hcons, hf => by
    rw [show csV (f + 1) s limit = (match feV s with
      | none => 1
      | some i => csGo (fun t => csV f t limit) s i limit cands 0) from rfl]
    rw [show compsV (f + 1) s = (match feV s with
      | none => [s]
      | some i => compsGo (compsV f) s i cands) from rfl]
    cases hfe : feV s with
    | none => exact ⟨by simp, fun _ => by simp⟩
    | some i =>
      have hIH : ∀ v, 1 ≤ v → v ≤ 9 → validAt s i v = true →
          csV f (s.set i v) limit ≤ (compsV f (s.set i v)).length ∧
            (csV f (s.set i v) limit < limit →
              csV f (s.set i v) limit = (compsV f (s.set i v)).length) := by
        intro v h1 h9 hva
        obtain ⟨a, b, c, d⟩ := branch_setup hlen hrange hcons hfe h1 h9 hva
        exact csV_le f (s.set i v) limit a b c (by omega)
      have hgo := csGo_le f limit i s hIH cands 0 (fun v hv => mem_cands_iff.mp hv)
      simpa using hgo

lemma count_solutions_eq_csV (g : Grid) (limit : Nat) :
    count_solutions g limit = csV 82 (vals g) limit := by
  unfold count_solutions
  rw [cntF_eq]

lemma length_le_one_of_all_eq {α : Type} {l : List α} (hnd : l.Nodup)
    (h : ∀ a b, a ∈ l → b ∈ l → a = b) : l.length ≤ 1 := by
  cases l with
  | nil => simp
  | cons a t =>
    cases t with
    | nil => simp
    | cons b u =>
      exfalso
      have hab := h a b (by simp) (by simp)
      exact (List.nodup_cons.mp hnd).1 (by rw [hab]; exact List.mem_cons_self b u)

lemma two_mem_of_two_le_length {α : Type} {l : List α} (hnd : l.Nodup) (h : 2 ≤ l.length) :
    ∃ a b, a ≠ b ∧ a ∈ l ∧ b ∈ l := by
  cases l with
  | nil => simp at h
  | cons a t =>
    cases t with
    | nil => simp at h
    | cons b u =>
      refine ⟨a, b, ?_, by simp, by simp⟩
      intro hab
      exact (List.nodup_cons.mp hnd).1 (by rw [hab]; exact List.mem_cons_self b u)

lemma two_le_length_of_two_mem {α : Type} {l : List α} {a b : α}
    (hne : a ≠ b) (ha : a ∈ l) (hb : b ∈ l) : 2 ≤ l.length := by
  cases l with
  | nil => exact absurd ha (List.not_mem_nil a)
  | cons x t =>
    cases t with
    | nil =>
      have ha2 : a = x := by simpa using ha
      have hb2 : b = x := by simpa using hb
      exact absurd (ha2.trans hb2.symm) hne
    | cons y u =>
      simp only [List.length_cons]
      omega

/-! ### C2: count_solutions as a uniqueness oracle -/

/-- A full grid whose filled cells are mutually inconsistent: every cell
holds 1.  count_solutions never re-checks already-filled cells, so it
reports 1 here although no valid completion exists. -/
def badGrid : Grid := List.replicate 81 ⟨1, CellType.FIXED⟩

/-- C2 counterexample: on the fully-filled inconsistent grid badGrid,
count_solutions(_, 2) returns 1 (not 0) although the grid has no valid
completion, refuting the oracle biconditionals as stated for every grid. -/
theorem count_solutions_oracle_counterexample :
    count_solutions badGrid 2 = 1 ∧ ¬∃ t, IsCompletion (vals badGrid) t := by
  constructor
  · decide
  · rintro ⟨t, htlen, htfull, htrange, htcons, hagree⟩
    have h0 : vget t 0 = 1 := by
      have h := hagree 0 (by omega) (by decide)
      rw [h]
      decide
    have h1 : vget t 1 = 1 := by
      have h := hagree 1 (by omega) (by decide)
      rw [h]
      decide
    have hp : Peers 0 1 := by decide
    have hne := htcons 0 (by omega) 1 (by omega) hp (by rw [h0]; omega)
    rw [h0, h1] at hne
    exact hne rfl

/-- C2 (amended): count_solutions returns 1 on every grid with no empty
cell (even an inconsistent one, which is what forces the amendment), and
for every well-formed grid (81 cells, values 0..9) whose nonzero cells are
mutually consistent, count_solutions with limit 2 returns 0 iff the grid
has no valid completion, 1 iff it has exactly one, and at least 2 iff it
has two or more; consequently has_unique_solution is true iff the grid has
exactly one valid completion. -/
theorem count_solutions_oracle :
    (∀ g : Grid, (∀ i, i < 81 → gval g i ≠ 0) → count_solutions g 2 = 1) ∧
    (∀ g : Grid, g.length = 81 → RangeOK (vals g) → ConsistentV (vals g) →
      ((count_solutions g 2 = 0 ↔ ¬∃ t, IsCompletion (vals g) t) ∧
       (count_solutions g 2 = 1 ↔ ∃! t, IsCompletion (vals g) t) ∧
       (2 ≤ count_solutions g 2 ↔
         ∃ t u, t ≠ u ∧ IsCompletion (vals g) t ∧ IsCompletion (vals g) u) ∧
       (has_unique_solution g = true ↔ ∃! t, IsCompletion (vals g) t))) := by
  have hbase : ∀ g : Grid, (∀ i, i < 81 → gval g i ≠ 0) → count_solutions g 2 = 1 := by
    intro g hfull
    rw [count_solutions_eq_csV]
    rw [show csV 82 (vals g) 2 = (match feV (vals g) with
      | none => 1
      | some i => csGo (fun t => csV 81 t 2) (vals g) i 2 cands 0) from rfl]
    rw [(feV_none_iff (vals g)).mpr (fun i hi => by rw [vget_vals]; exact hfull i hi)]
  refine ⟨hbase, ?_⟩
  intro g hlen hrange hcons
  have hlen81 : (vals g).length = 81 := by rw [vals_length, hlen]
  have hfuel : emptyCountV (vals g) < 82 := by
    have := emptyCountV_le (vals g)
    omega
  have hcs : count_solutions g 2 = csV 82 (vals g) 2 := count_solutions_eq_csV g 2
  obtain ⟨hmem, hnd⟩ := comps_sound 82 (vals g) hlen81 hrange hcons hfuel
  obtain ⟨hle, heq⟩ := csV_le 82 (vals g) 2 hlen81 hrange hcons hfuel
  have hA : csV 82 (vals g) 2 = 0 ↔ ¬∃ t, IsCompletion (vals g) t := by
    constructor
    · intro h0
      rintro ⟨t, ht⟩
      have hLlen : (compsV 82 (vals g)).length = 0 := by
        have h2 := heq (by omega)
        omega
      have htL : t ∈ compsV 82 (vals g) := (hmem t).mpr ht
      rw [List.length_eq_zero] at hLlen
      rw [hLlen] at htL
      exact List.not_mem_nil t htL
    · intro hno
      have hLnil : compsV 82 (vals g) = [] := by
        rw [List.eq_nil_iff_forall_not_mem]
        intro t ht
        exact hno ⟨t, (hmem t).mp ht⟩
      have hl0 : (compsV 82 (vals g)).length = 0 := by rw [hLnil]; rfl
      omega
  have hB : csV 82 (vals g) 2 = 1 ↔ ∃! t, IsCompletion (vals g) t := by
    constructor
    · intro h1
      have hN : (compsV 82 (vals g)).length = 1 := by
        have h2 := heq (by omega)
        omega
      obtain ⟨a, ha⟩ := List.length_eq_one.mp hN
      refine ⟨a, (hmem a).mp (by rw [ha]; exact List.mem_cons_self a []), ?_⟩
      intro t ht
      have htL : t ∈ compsV 82 (vals g) := (hmem t).mpr ht
      rw [ha] at htL
      simpa using htL
    · rintro ⟨t, ht, huniq⟩
      have htL : t ∈ compsV 82 (vals g) := (hmem t).mpr ht
      have h1le : 0 < (compsV 82 (vals g)).length :=
        List.length_pos.mpr (List.ne_nil_of_mem htL)
      have hle1 : (compsV 82 (vals g)).length ≤ 1 := by
        apply length_le_one_of_all_eq hnd
        intro a b ha hb
        rw [huniq a ((hmem a).mp ha), huniq b ((hmem b).mp hb)]
      have hr0 : csV 82 (vals g) 2 ≠ 0 := fun h0 => (hA.mp h0) ⟨t, ht⟩
      have hreq := heq
      by_cases hrlt : csV 82 (vals g) 2 < 2
      · have := heq hrlt
        omega
      · omega
  have hC : 2 ≤ csV 82 (vals g) 2 ↔
      ∃ t u, t ≠ u ∧ IsCompletion (vals g) t ∧ IsCompletion (vals g) u := by
    constructor
    · intro h2
      have hN : 2 ≤ (compsV 82 (vals g)).length := by omega
      obtain ⟨a, b, hab, ha, hb⟩ := two_mem_of_two_le_length hnd hN
      exact ⟨a, b, hab, (hmem a).mp ha, (hmem b).mp hb⟩
    · rintro ⟨t, u, hne2, ht, hu⟩
      have h2 : 2 ≤ (compsV 82 (vals g)).length :=
        two_le_length_of_two_mem hne2 ((hmem t).mpr ht) ((hmem u).mpr hu)
      by_contra hlt
      push_neg at hlt
      have := heq (by omega)
      omega
  refine ⟨by rw [hcs]; exact hA, by rw [hcs]; exact hB, by rw [hcs]; exact hC, ?_⟩
  show (count_solutions (copyGrid g) 2 == 1) = true ↔ ∃! t, IsCompletion (vals g) t
  rw [beq_iff_eq]
  show count_solutions g 2 = 1 ↔ _
  rw [hcs]
  exact hB

theorem count_solutions_oracle_witness :
    count_solutions solGrid 2 = 1 ∧
      ∃! t, IsCompletion (vals (gsetCell solGrid 0 ⟨0, CellType.DYNAMIC⟩)) t :=
  ⟨count_solutions_oracle.1 solGrid (by decide),
   ((count_solutions_oracle.2 (gsetCell solGrid 0 ⟨0, CellType.DYNAMIC⟩)
      (by decide) (by decide) (by decide)).2.1).mp (by decide)⟩

/-! ### The remove_cells loop -/

lemma csV_full_one (s : List Nat) (hfull : ∀ i, i < 81 → vget s i ≠ 0) :
    csV 82 s 2 = 1 := by
  rw [show csV 82 s 2 = (match feV s with
    | none => 1
    | some i => csGo (fun t => csV 81 t 2) s i 2 cands 0) from rfl]
  rw [(feV_none_iff s).mpr hfull]

lemma vals_reclassify : ∀ g : Grid, vals (reclassify g) = vals g
  | [] => rfl
  | c :: g => congrArg (c.value :: ·) (vals_reclassify g)

lemma reclassify_length (g : Grid) : (reclassify g).length = g.length :=
  List.length_map g _

lemma gget_reclassify (g : Grid) (i : Nat) (hi : i < g.length) :
    gget (reclassify g) i =
      ⟨gval g i, if gval g i = 0 then CellType.DYNAMIC else CellType.FIXED⟩ := by
  have h1 : gval g i = (g.getD i defaultCell).value := rfl
  unfold gget reclassify
  rw [List.getD_eq_getElem _ _ (by simpa using hi)]
  rw [List.getElem_map]
  rw [h1, List.getD_eq_getElem _ _ hi]

/-- Invariant preservation for the carving loop: any property of the value
list and the removal counter that survives one successful removal (the only
step that changes the values, clearing one nonzero cell under the
uniqueness guard) holds, with removed = count, for the grid the loop exits
with.  Skipped probes leave the grid unchanged and failed removals restore
the cleared value, so the value list is untouched on those paths. -/
lemma remove_cells_loop_inv (rng : Nat → Nat) (P : List Nat → Nat → Prop)
    (hstep : ∀ (s : List Nat) (idx removed : Nat), idx < 81 → vget s idx ≠ 0 →
      s.length = 81 → csV 82 (s.set idx 0) 2 = 1 → P s removed →
      P (s.set idx 0) (removed + 1)) :
    ∀ (fuel pos : Nat) (g : Grid) (removed count : Nat),
      g.length = 81 → removed ≤ count → P (vals g) removed →
      ∀ r, remove_cells_loop rng fuel pos g removed count = some r →
        r.1.length = 81 ∧ P (vals r.1) count := by
  intro fuel
  induction fuel with
  | zero =>
    intro pos g removed count _ _ _ r hr
    exact Option.noConfusion hr
  | succ f ih =>
    intro pos g removed count hlen hrc hP r hr
    have heq : remove_cells_loop rng (f + 1) pos g removed count =
      (if removed < count then
        (if (gget g (rng pos % 9 * 9 + rng (pos + 1) % 9)).value = 0 then
          remove_cells_loop rng f (pos + 2) g removed count
        else if has_unique_solution (gsetCell g (rng pos % 9 * 9 + rng (pos + 1) % 9)
            ⟨0, CellType.DYNAMIC⟩) then
          remove_cells_loop rng f (pos + 2)
            (gsetCell g (rng pos % 9 * 9 + rng (pos + 1) % 9) ⟨0, CellType.DYNAMIC⟩)
            (removed + 1) count
        else
          remove_cells_loop rng f (pos + 2)
            (gsetCell (gsetCell g (rng pos % 9 * 9 + rng (pos + 1) % 9) ⟨0, CellType.DYNAMIC⟩)
              (rng pos % 9 * 9 + rng (pos + 1) % 9)
              ⟨(gget g (rng pos % 9 * 9 + rng (pos + 1) % 9)).value, CellType.FIXED⟩)
            removed count)
      else some (g, pos)) := rfl
    rw [heq] at hr
    by_cases hlt : removed < count
    · rw [if_pos hlt] at hr
      have hidx : rng pos % 9 * 9 + rng (pos + 1) % 9 < 81 := by
        have h1 : rng pos % 9 < 9 := Nat.mod_lt _ (by omega)
        have h2 : rng (pos + 1) % 9 < 9 := Nat.mod_lt _ (by omega)
        omega
      by_cases hz : (gget g (rng pos % 9 * 9 + rng (pos + 1) % 9)).value = 0
      · rw [if_pos hz] at hr
        exact ih (pos + 2) g removed count hlen hrc hP r hr
      · rw [if_neg hz] at hr
        have hvnz : vget (vals g) (rng pos % 9 * 9 + rng (pos + 1) % 9) ≠ 0 := by
          rw [vget_vals]
          exact hz
        have hslen : (vals g).length = 81 := by rw [vals_length, hlen]
        have hvals1 : vals (gsetCell g (rng pos % 9 * 9 + rng (pos + 1) % 9)
            ⟨0, CellType.DYNAMIC⟩) = (vals g).set (rng pos % 9 * 9 + rng (pos + 1) % 9) 0 :=
          vals_gsetCell g _ _
        by_cases hu : has_unique_solution (gsetCell g (rng pos % 9 * 9 + rng (pos + 1) % 9)
            ⟨0, CellType.DYNAMIC⟩) = true
        · rw [if_pos hu] at hr
          have hcs : csV 82 ((vals g).set (rng pos % 9 * 9 + rng (pos + 1) % 9) 0) 2 = 1 := by
            have h2 : count_solutions (gsetCell g (rng pos % 9 * 9 + rng (pos + 1) % 9)
                ⟨0, CellType.DYNAMIC⟩) 2 = 1 := by
              have h3 := hu
              unfold has_unique_solution at h3
              unfold copyGrid at h3
              exact beq_iff_eq.mp h3
            rw [count_solutions_eq_csV, hvals1] at h2
            exact h2
          have hP2 := hstep (vals g) (rng pos % 9 * 9 + rng (pos + 1) % 9) removed
            hidx hvnz hslen hcs hP
          rw [← hvals1] at hP2
          exact ih (pos + 2) _ (removed + 1) count (by
            rw [show (gsetCell g (rng pos % 9 * 9 + rng (pos + 1) % 9)
              ⟨0, CellType.DYNAMIC⟩) = g.set (rng pos % 9 * 9 + rng (pos + 1) % 9)
              ⟨0, CellType.DYNAMIC⟩ from rfl, List.length_set, hlen]) (by omega) hP2 r hr
        · rw [if_neg hu] at hr
          have hrev : vals (gsetCell (gsetCell g (rng pos % 9 * 9 + rng (pos + 1) % 9)
              ⟨0, CellType.DYNAMIC⟩) (rng pos % 9 * 9 + rng (pos + 1) % 9)
              ⟨(gget g (rng pos % 9 * 9 + rng (pos + 1) % 9)).value, CellType.FIXED⟩) =
              vals g := by
            rw [vals_gsetCell, vals_gsetCell]
            rw [List.set_set]
            rw [show (⟨(gget g (rng pos % 9 * 9 + rng (pos + 1) % 9)).value,
              CellType.FIXED⟩ : Cell).value =
              vget (vals g) (rng pos % 9 * 9 + rng (pos + 1) % 9) from (vget_vals g _).symm ▸ rfl]
            exact vset_vget_self (vals g) _
          exact ih (pos + 2) _ removed count (by
            rw [show (gsetCell (gsetCell g (rng pos % 9 * 9 + rng (pos + 1) % 9)
              ⟨0, CellType.DYNAMIC⟩) (rng pos % 9 * 9 + rng (pos + 1) % 9)
              ⟨(gget g (rng pos % 9 * 9 + rng (pos + 1) % 9)).value, CellType.FIXED⟩) =
              ((g.set (rng pos % 9 * 9 + rng (pos + 1) % 9) ⟨0, CellType.DYNAMIC⟩).set
                (rng pos % 9 * 9 + rng (pos + 1) % 9)
                ⟨(gget g (rng pos % 9 * 9 + rng (pos + 1) % 9)).value, CellType.FIXED⟩)
              from rfl, List.length_set, List.length_set, hlen])
            hrc (by rw [hrev]; exact hP) r hr
    · rw [if_neg hlt] at hr
      have hrg : r = (g, pos) := by
        injection hr with h2
        exact h2.symm
      rw [hrg]
      have hcnt : removed = count := by omega
      exact ⟨hlen, hcnt ▸ hP⟩

lemma gsetVal_length (g : Grid) (i v : Nat) : (gsetVal g i v).length = g.length :=
  List.length_set g i _

lemma gsetCell_length (g : Grid) (i : Nat) (c : Cell) : (gsetCell g i c).length = g.length :=
  List.length_set g i c

lemma remove_cells_some {rng : Nat → Nat} {fuel pos : Nat} {g : Grid} {count : Nat}
    {q : Grid × Nat} (h : remove_cells rng fuel pos g count = some q) :
    ∃ r, remove_cells_loop rng fuel pos g 0 count = some r ∧ q.1 = reclassify r.1 := by
  unfold remove_cells at h
  cases hl : remove_cells_loop rng fuel pos g 0 count with
  | none =>
    rw [hl] at h
    exact absurd h (by simp)
  | some r =>
    rw [hl] at h
    refine ⟨r, rfl, ?_⟩
    simp only [Option.map_some', Option.some.injEq] at h
    rw [← h]

/-- C1: whenever remove_cells(grid, ref, count) returns, given the grid
started as a complete solution (no empty cell), the puzzle grid left in
place has exactly one completion: count_solutions on it with limit 2
returns 1.  (generate_new_game calls remove_cells on a copy of the
generated full solution, so this is the uniqueness invariant of every
produced puzzle.) -/
theorem remove_cells_unique_solution (rng : Nat → Nat) (fuel pos : Nat) (g : Grid)
    (count : Nat) (hlen : g.length = 81) (hfull : ∀ i, i < 81 → gval g i ≠ 0)
    (g2 : Grid) (pos2 : Nat) (h : remove_cells rng fuel pos g count = some (g2, pos2)) :
    count_solutions g2 2 = 1 := by
  obtain ⟨r, hl, hg2⟩ := remove_cells_some h
  have hinv := remove_cells_loop_inv rng (fun s _ => csV 82 s 2 = 1)
    (fun s idx removed _ _ _ hcs _ => hcs)
    fuel pos g 0 count hlen (Nat.zero_le _)
    (csV_full_one (vals g) (fun i hi => by rw [vget_vals]; exact hfull i hi))
    r hl
  rw [show g2 = reclassify r.1 from hg2, count_solutions_eq_csV, vals_reclassify]
  exact hinv.2

theorem remove_cells_unique_solution_witness :
    remove_cells (fun _ => 0) 2 0 solGrid 1 =
      some (reclassify (gsetCell solGrid 0 ⟨0, CellType.DYNAMIC⟩), 2) ∧
      count_solutions (reclassify (gsetCell solGrid 0 ⟨0, CellType.DYNAMIC⟩)) 2 = 1 :=
  ⟨by decide,
   remove_cells_unique_solution (fun _ => 0) 2 0 solGrid 1 (by decide) (by decide)
     (reclassify (gsetCell solGrid 0 ⟨0, CellType.DYNAMIC⟩)) 2 (by decide)⟩

lemma emptyCountV_add_filledCountV (s : List Nat) :
    emptyCountV s + filledCountV s = 81 := by
  unfold emptyCountV filledCountV
  have h := List.length_eq_countP_add_countP (fun i => vget s i == 0) (List.range 81)
  rw [List.length_range] at h
  have h2 : (List.range 81).countP (fun a => decide ¬((vget s a == 0) = true)) =
      (List.range 81).countP (fun i => !(vget s i == 0)) := by
    apply List.countP_congr
    intro x _
    cases hx : vget s x == 0 <;> simp [hx]
  omega

/-- C5: whenever remove_cells(grid, ref, count) terminates, given the grid
started with no empty cells, the grid has exactly count empty cells and
81 - count nonzero cells (hence exactly 35 empty and 46 nonzero for a
requested removal of 35). -/
theorem remove_cells_removal_count (rng : Nat → Nat) (fuel pos : Nat) (g : Grid)
    (count : Nat) (hlen : g.length = 81) (hfull : ∀ i, i < 81 → gval g i ≠ 0)
    (g2 : Grid) (pos2 : Nat) (h : remove_cells rng fuel pos g count = some (g2, pos2)) :
    emptyCountV (vals g2) = count ∧ filledCountV (vals g2) = 81 - count := by
  obtain ⟨r, hl, hg2⟩ := remove_cells_some h
  have hinit : emptyCountV (vals g) = 0 := by
    unfold emptyCountV
    rw [List.countP_eq_zero]
    intro a ha
    have h1 := hfull a (List.mem_range.mp ha)
    simp only [vget_vals]
    simpa using h1
  have hinv := remove_cells_loop_inv rng (fun s removed => emptyCountV s = removed)
    (fun s idx removed hidx hnz hslen _ hP => by
      show emptyCountV (s.set idx 0) = removed + 1
      have hP2 : emptyCountV s = removed := hP
      rw [emptyCountV_set_zero hidx (by omega) hnz, hP2])
    fuel pos g 0 count hlen (Nat.zero_le _) hinit r hl
  have he : emptyCountV (vals g2) = count := by
    rw [show g2 = reclassify r.1 from hg2, vals_reclassify]
    exact hinv.2
  have hsum := emptyCountV_add_filledCountV (vals g2)
  exact ⟨he, by omega⟩

theorem remove_cells_removal_count_witness :
    remove_cells (fun _ => 0) 1 0 solGrid 0 = some (reclassify solGrid, 0) ∧
      emptyCountV (vals (reclassify solGrid)) = 0 ∧
      filledCountV (vals (reclassify solGrid)) = 81 - 0 :=
  ⟨by decide,
   (remove_cells_removal_count (fun _ => 0) 1 0 solGrid 0 (by decide) (by decide)
     (reclassify solGrid) 0 (by decide)).1,
   (remove_cells_removal_count (fun _ => 0) 1 0 solGrid 0 (by decide) (by decide)
     (reclassify solGrid) 0 (by decide)).2⟩

/-! ### Length preservation of the solution generator -/

lemma fillGo_length (fill1 : Grid → Nat → Nat → Nat → Bool × Grid × Nat)
    (hl : ∀ g r c pp, ((fill1 g r c pp).2.1).length = g.length) (row col : Nat) :
    ∀ (vs : List Nat) (g : Grid) (pos : Nat),
      ((fillGo fill1 row col vs g pos).2.1).length = g.length := by
  intro vs
  induction vs with
  | nil => intro g pos; rfl
  | cons v vs ih =>
    intro g pos
    rw [show fillGo fill1 row col (v :: vs) g pos =
      (if is_valid g row col v then
        (if (fill1 (gsetVal g (row * 9 + col) v) (nextRow row col) (nextCol col) pos).1 then
          fill1 (gsetVal g (row * 9 + col) v) (nextRow row col) (nextCol col) pos
        else fillGo fill1 row col vs
          (gsetVal ((fill1 (gsetVal g (row * 9 + col) v) (nextRow row col) (nextCol col) pos).2.1)
            (row * 9 + col) 0)
          (fill1 (gsetVal g (row * 9 + col) v) (nextRow row col) (nextCol col) pos).2.2)
       else fillGo fill1 row col vs g pos) from rfl]
    by_cases hv : is_valid g row col v = true
    · rw [if_pos hv]
      by_cases hr : (fill1 (gsetVal g (row * 9 + col) v) (nextRow row col) (nextCol col) pos).1 = true
      · rw [if_pos hr, hl]
        exact gsetVal_length g _ v
      · rw [if_neg hr, ih]
        rw [gsetVal_length, hl]
        exact gsetVal_length g _ v
    · rw [if_neg hv]
      exact ih g pos

lemma fillF_length (rng : Nat → Nat) :
    ∀ (f : Nat) (g : Grid) (row col pos : Nat),
      ((fillF rng f g row col pos).2.1).length = g.length
  | 0, _, _, _, _ => rfl
  | f + 1, g, row, col, pos => by
    rw [show fillF rng (f + 1) g row col pos =
      (if row = 9 then (true, g, pos)
       else fillGo (fillF rng f) row col (shuffle9 rng pos) g (pos + 9)) from rfl]
    by_cases hrow : row = 9
    · rw [if_pos hrow]
    · rw [if_neg hrow]
      exact fillGo_length (fillF rng f) (fun g2 r c pp => fillF_length rng f g2 r c pp)
        row col (shuffle9 rng pos) g (pos + 9)

/-- C6: after generate_new_game returns, every empty puzzle cell is
classified DYNAMIC, every nonzero puzzle cell is classified FIXED, and
every nonzero puzzle cell holds the solution grid value at the same
index. -/
theorem generate_new_game_classification (rng : Nat → Nat) (fuel count : Nat)
    (p sol : Grid) (h : generate_new_game rng fuel count = some (p, sol)) :
    ∀ i, i < 81 →
      (gval p i = 0 → (gget p i).type = CellType.DYNAMIC) ∧
      (gval p i ≠ 0 → (gget p i).type = CellType.FIXED ∧ gval p i = gval sol i) := by
  simp only [generate_new_game] at h
  cases hrc : remove_cells rng fuel (fillF rng fuel emptyGrid 0 0 0).2.2
      (fillF rng fuel emptyGrid 0 0 0).2.1 count with
  | none =>
    rw [hrc] at h
    exact absurd h (by simp)
  | some q =>
    rw [hrc] at h
    simp only [Option.map_some', Option.some.injEq, Prod.mk.injEq] at h
    obtain ⟨hp, hsol⟩ := h
    rw [hsol] at hrc
    obtain ⟨r, hl, hq1⟩ := remove_cells_some hrc
    have hp2 : p = reclassify r.1 := by rw [← hp, hq1]
    have hsollen : sol.length = 81 := by
      rw [← hsol, fillF_length]
      rfl
    have hinv := remove_cells_loop_inv rng
      (fun s _ => ∀ i, i < 81 → vget s i = 0 ∨ vget s i = vget (vals sol) i)
      (fun s idx removed hidx hnz hslen _ hP => by
        show ∀ i, i < 81 → vget (s.set idx 0) i = 0 ∨ vget (s.set idx 0) i = vget (vals sol) i
        have hP2 : ∀ i, i < 81 → vget s i = 0 ∨ vget s i = vget (vals sol) i := hP
        intro i hi
        by_cases hii : idx = i
        · left
          rw [← hii, vget_set, if_pos ⟨rfl, by omega⟩]
        · rw [vget_set, if_neg (fun hc => hii hc.1)]
          exact hP2 i hi)
      fuel (fillF rng fuel emptyGrid 0 0 0).2.2 sol 0 count hsollen (Nat.zero_le _)
      (fun i _ => Or.inr rfl) r hl
    intro i hi
    have hrlen : r.1.length = 81 := hinv.1
    have hgg : gget p i =
        ⟨gval r.1 i, if gval r.1 i = 0 then CellType.DYNAMIC else CellType.FIXED⟩ := by
      rw [hp2]
      exact gget_reclassify r.1 i (by omega)
    have hval : gval p i = gval r.1 i := by
      show (gget p i).value = _
      rw [hgg]
    constructor
    · intro h0
      show (gget p i).type = CellType.DYNAMIC
      rw [hgg]
      show (if gval r.1 i = 0 then CellType.DYNAMIC else CellType.FIXED) = CellType.DYNAMIC
      rw [if_pos (by rw [← hval]; exact h0)]
    · intro h0
      have hnz : gval r.1 i ≠ 0 := by rw [← hval]; exact h0
      constructor
      · show (gget p i).type = CellType.FIXED
        rw [hgg]
        show (if gval r.1 i = 0 then CellType.DYNAMIC else CellType.FIXED) = CellType.FIXED
        rw [if_neg hnz]
      · have hP := hinv.2 i hi
        rw [vget_vals] at hP
        rcases hP with hP | hP
        · exact absurd hP hnz
        · rw [vget_vals] at hP
          rw [hval, hP]

theorem generate_new_game_classification_witness :
    generate_new_game (fun _ => 0) 1 0 = some (emptyGrid, emptyGrid) ∧
      (∀ i, i < 81 →
        (gval emptyGrid i = 0 → (gget emptyGrid i).type = CellType.DYNAMIC) ∧
        (gval emptyGrid i ≠ 0 → (gget emptyGrid i).type = CellType.FIXED ∧
          gval emptyGrid i = gval emptyGrid i)) :=
  ⟨by decide,
   generate_new_game_classification (fun _ => 0) 1 0 emptyGrid emptyGrid (by decide)⟩

/-! ### The solution generator: shuffle -/

lemma gval_set (g : Grid) (i j v : Nat) :
    gval (gsetVal g i v) j = if i = j ∧ i < g.length then v else gval g j := by
  unfold gval gsetVal
  rw [gget_set]
  by_cases h : i = j ∧ i < g.length
  · rw [if_pos h, if_pos h]
  · rw [if_neg h, if_neg h]

lemma getD_cons_set_perm {α : Type} :
    ∀ (t : List α) (m : Nat) (a d : α), m < t.length →
      (t.getD m d :: t.set m a).Perm (a :: t)
  | b :: t2, 0, a, d, _ => List.Perm.swap a b t2
  | b :: t2, n + 1, a, d, h => by
    have h2 : n < t2.length := by simpa using h
    exact ((List.Perm.swap b (t2.getD n d) (t2.set n a)).trans
      (List.Perm.cons b (getD_cons_set_perm t2 n a d h2))).trans (List.Perm.swap a b t2)

/-- The swap of positions i and j performed by the shuffle is a
permutation of the candidate array. -/
lemma swapL_perm : ∀ (l : List Nat) (i j : Nat), i < l.length → j < l.length →
    (swapL l i j).Perm l
  | [], _, _, hi, _ => absurd hi (by simp)
  | a :: t, 0, 0, _, _ => List.Perm.refl (a :: t)
  | a :: t, 0, m + 1, _, hj => by
    have h2 : m < t.length := by simpa using hj
    exact getD_cons_set_perm t m a 0 h2
  | a :: t, n + 1, 0, hi, _ => by
    have h2 : n < t.length := by simpa using hi
    exact getD_cons_set_perm t n a 0 h2
  | a :: t, n + 1, m + 1, hi, hj => by
    have h2 : n < t.length := by simpa using hi
    have h3 : m < t.length := by simpa using hj
    exact List.Perm.cons a (swapL_perm t n m h2 h3)

/-- The nine swaps of fill_grid's shuffle permute {1..9}, whatever the
random draws are. -/
lemma shuffle9_perm (rng : Nat → Nat) (pos : Nat) : (shuffle9 rng pos).Perm cands := by
  have gen : ∀ (idxs : List Nat), (∀ i, i ∈ idxs → i < 9) → ∀ l : List Nat, l.length = 9 →
      l.Perm cands →
      (idxs.foldl (fun l2 i => swapL l2 i (rng (pos + i) % 9)) l).Perm cands := by
    intro idxs
    induction idxs with
    | nil => intro _ l _ hp; exact hp
    | cons i idxs ih =>
      intro hb l hlen hp
      have hi9 : i < 9 := hb i (List.mem_cons_self i idxs)
      have hswap := swapL_perm l i (rng (pos + i) % 9) (by omega)
        (by have := Nat.mod_lt (rng (pos + i)) (show 0 < 9 by omega); omega)
      have hlen2 : (swapL l i (rng (pos + i) % 9)).length = 9 := by
        rw [hswap.length_eq, hlen]
      exact ih (fun w hw => hb w (List.mem_cons_of_mem i hw)) _ hlen2 (hswap.trans hp)
  exact gen (List.range 9) (fun i hi => List.mem_range.mp hi) cands rfl (List.Perm.refl cands)

lemma shuffle9_mem {rng : Nat → Nat} {pos v : Nat} :
    v ∈ shuffle9 rng pos ↔ 1 ≤ v ∧ v ≤ 9 := by
  rw [(shuffle9_perm rng pos).mem_iff]
  exact mem_cands_iff

/-! ### The solution generator: backtracking restores the grid on failure -/

lemma fillGo_cons (fill1 : Grid → Nat → Nat → Nat → Bool × Grid × Nat)
    (row col v : Nat) (vs : List Nat) (g : Grid) (pos : Nat) :
    fillGo fill1 row col (v :: vs) g pos =
      (if is_valid g row col v then
        (if (fill1 (gsetVal g (row * 9 + col) v) (nextRow row col) (nextCol col) pos).1 then
          fill1 (gsetVal g (row * 9 + col) v) (nextRow row col) (nextCol col) pos
        else fillGo fill1 row col vs
          (gsetVal ((fill1 (gsetVal g (row * 9 + col) v) (nextRow row col) (nextCol col) pos).2.1)
            (row * 9 + col) 0)
          (fill1 (gsetVal g (row * 9 + col) v) (nextRow row col) (nextCol col) pos).2.2)
       else fillGo fill1 row col vs g pos) := rfl

lemma fillF_succ (rng : Nat → Nat) (f : Nat) (g : Grid) (row col pos : Nat) :
    fillF rng (f + 1) g row col pos =
      (if row = 9 then (true, g, pos)
       else fillGo (fillF rng f) row col (shuffle9 rng pos) g (pos + 9)) := rfl

lemma nextCol_lt (col : Nat) : nextCol col < 9 := Nat.mod_lt _ (by omega)

lemma next_index (row col : Nat) (hcol : col < 9) :
    nextRow row col * 9 + nextCol col = row * 9 + col + 1 := by
  unfold nextRow nextCol
  by_cases h8 : col = 8
  · rw [if_pos h8]
    subst h8
    omega
  · rw [if_neg h8]
    omega

lemma nextRow_le (row col : Nat) (hrow : row < 9) : nextRow row col ≤ 9 := by
  unfold nextRow
  split <;> omega

lemma fillGo_restore (fill1 : Grid → Nat → Nat → Nat → Bool × Grid × Nat)
    (hrest : ∀ g2 r2 c2 p2, r2 ≤ 9 → c2 < 9 → g2.length = 81 →
      (∀ j, j < 81 → r2 * 9 + c2 ≤ j → gval g2 j = 0) →
      (fill1 g2 r2 c2 p2).1 = false → (fill1 g2 r2 c2 p2).2.1 = g2)
    (row col : Nat) (hrow : row < 9) (hcol : col < 9) :
    ∀ (vs : List Nat) (g : Grid) (pos : Nat), g.length = 81 →
      (∀ j, j < 81 → row * 9 + col ≤ j → gval g j = 0) →
      (fillGo fill1 row col vs g pos).1 = false →
      (fillGo fill1 row col vs g pos).2.1 = g := by
  intro vs
  induction vs with
  | nil => intro g pos _ _ _; rfl
  | cons v vs ih =>
    intro g pos hglen hsuf hfalse
    rw [fillGo_cons] at hfalse ⊢
    by_cases hv : is_valid g row col v = true
    · rw [if_pos hv] at hfalse ⊢
      by_cases hr1 :
          (fill1 (gsetVal g (row * 9 + col) v) (nextRow row col) (nextCol col) pos).1 = true
      · rw [if_pos hr1] at hfalse
        rw [hfalse] at hr1
        exact absurd hr1 (by simp)
      · rw [if_neg hr1] at hfalse ⊢
        have hk81 : row * 9 + col < 81 := by omega
        have hsuf1 : ∀ j, j < 81 → nextRow row col * 9 + nextCol col ≤ j →
            gval (gsetVal g (row * 9 + col) v) j = 0 := by
          intro j hj hge
          rw [next_index row col hcol] at hge
          rw [gval_set, if_neg (fun hc2 => by omega)]
          exact hsuf j hj (by omega)
        have hlen1 : (gsetVal g (row * 9 + col) v).length = 81 := by
          rw [gsetVal_length, hglen]
        have hfb :
            (fill1 (gsetVal g (row * 9 + col) v) (nextRow row col) (nextCol col) pos).1 =
              false := by
          cases hb : (fill1 (gsetVal g (row * 9 + col) v) (nextRow row col) (nextCol col) pos).1
          · rfl
          · exact absurd hb hr1
        have hrw := hrest (gsetVal g (row * 9 + col) v) (nextRow row col) (nextCol col) pos
          (nextRow_le row col hrow) (nextCol_lt col) hlen1 hsuf1 hfb
        rw [hrw] at hfalse ⊢
        rw [gsetVal_zero_cancel g (row * 9 + col) v (hsuf _ hk81 (Nat.le_refl _))] at hfalse ⊢
        exact ih g _ hglen hsuf hfalse
    · rw [if_neg hv] at hfalse ⊢
      exact ih g pos hglen hsuf hfalse

/-- fill_grid restores the grid on every failing path: the backtracking
reset runs on each exhausted candidate, so a false return leaves the grid
exactly as it was. -/
lemma fillF_restore (rng : Nat → Nat) :
    ∀ (f : Nat) (g : Grid) (row col pos : Nat), row ≤ 9 → col < 9 → g.length = 81 →
      (∀ j, j < 81 → row * 9 + col ≤ j → gval g j = 0) →
      (fillF rng f g row col pos).1 = false → (fillF rng f g row col pos).2.1 = g
  | 0, _, _, _, _, _, _, _, _, _ => rfl
  | f + 1, g, row, col, pos, hrow, hcol, hglen, hsuf, hfalse => by
    rw [fillF_succ] at hfalse ⊢
    by_cases h9 : row = 9
    · rw [if_pos h9] at hfalse
      exact absurd hfalse (by simp)
    · rw [if_neg h9] at hfalse ⊢
      exact fillGo_restore (fillF rng f)
        (fun g2 r2 c2 p2 h1 h2 h3 h4 h5 => fillF_restore rng f g2 r2 c2 p2 h1 h2 h3 h4 h5)
        row col (by omega) hcol (shuffle9 rng pos) g (pos + 9) hglen hsuf hfalse

/-! ### The solution generator: completeness of the search -/

/-- If the grid agrees with a full consistent solution S below the current
cell and is empty from it on, then S's value at the current cell passes
is_valid. -/
lemma target_is_valid {g : Grid} {S : List Nat} {row col : Nat}
    (hrow : row < 9) (hcol : col < 9)
    (hSfull : FullV S) (hScons : ConsistentV S)
    (hsuf : ∀ j, j < 81 → row * 9 + col ≤ j → gval g j = 0)
    (hpre : ∀ j, j < 81 → j < row * 9 + col → gval g j = vget S j) :
    is_valid g row col (vget S (row * 9 + col)) = true := by
  rw [is_valid_eq_V, is_validV_iff hrow hcol]
  intro j hj hpeer hjv
  rw [vget_vals] at hjv
  have hk81 : row * 9 + col < 81 := by omega
  by_cases hjk : j < row * 9 + col
  · rw [hpre j hj hjk] at hjv
    exact hScons (row * 9 + col) hk81 j hj hpeer (hSfull _ hk81) hjv.symm
  · rw [hsuf j hj (by omega)] at hjv
    exact hSfull _ hk81 hjv.symm

lemma fillGo_complete (rng : Nat → Nat) (f : Nat) (S : List Nat)
    (hSfull : FullV S) (hScons : ConsistentV S)
    (row col : Nat) (hrow : row < 9) (hcol : col < 9)
    (hfc : ∀ g2 r2 c2 p2, row * 9 + col < r2 * 9 + c2 → r2 ≤ 9 → c2 < 9 →
      g2.length = 81 →
      (∀ j, j < 81 → r2 * 9 + c2 ≤ j → gval g2 j = 0) →
      (∀ j, j < 81 → j < r2 * 9 + c2 → gval g2 j = vget S j) →
      (fillF rng f g2 r2 c2 p2).1 = true) :
    ∀ (vs : List Nat) (g : Grid) (pos : Nat), g.length = 81 →
      (∀ j, j < 81 → row * 9 + col ≤ j → gval g j = 0) →
      (∀ j, j < 81 → j < row * 9 + col → gval g j = vget S j) →
      vget S (row * 9 + col) ∈ vs →
      (fillGo (fillF rng f) row col vs g pos).1 = true := by
  intro vs
  induction vs with
  | nil =>
    intro g pos _ _ _ hmem
    exact absurd hmem (List.not_mem_nil _)
  | cons v vs ih =>
    intro g pos hglen hsuf hpre hmem
    rw [fillGo_cons]
    have hk81 : row * 9 + col < 81 := by omega
    by_cases hv : is_valid g row col v = true
    · rw [if_pos hv]
      have hlen1 : (gsetVal g (row * 9 + col) v).length = 81 := by
        rw [gsetVal_length, hglen]
      have hsuf1 : ∀ j, j < 81 → nextRow row col * 9 + nextCol col ≤ j →
          gval (gsetVal g (row * 9 + col) v) j = 0 := by
        intro j hj hge
        rw [next_index row col hcol] at hge
        rw [gval_set, if_neg (fun hc2 => by omega)]
        exact hsuf j hj (by omega)
      by_cases hr1 :
          (fillF rng f (gsetVal g (row * 9 + col) v) (nextRow row col) (nextCol col) pos).1 =
            true
      · rw [if_pos hr1]
        exact hr1
      · rw [if_neg hr1]
        have hvne : v ≠ vget S (row * 9 + col) := by
          intro hveq
          apply hr1
          apply hfc (gsetVal g (row * 9 + col) v) (nextRow row col) (nextCol col) pos
            (by rw [next_index row col hcol]; omega)
            (nextRow_le row col hrow) (nextCol_lt col) hlen1 hsuf1
          intro j hj hlt
          rw [next_index row col hcol] at hlt
          by_cases hjk : j = row * 9 + col
          · subst hjk
            rw [gval_set, if_pos ⟨rfl, by omega⟩, hveq]
          · rw [gval_set, if_neg (fun hc2 => hjk hc2.1.symm)]
            exact hpre j hj (by omega)
        have hmem2 : vget S (row * 9 + col) ∈ vs := by
          rcases List.mem_cons.mp hmem with he | h2
          · exact absurd he.symm hvne
          · exact h2
        have hfb :
            (fillF rng f (gsetVal g (row * 9 + col) v) (nextRow row col) (nextCol col) pos).1 =
              false := by
          cases hb2 :
            (fillF rng f (gsetVal g (row * 9 + col) v) (nextRow row col) (nextCol col) pos).1
          · rfl
          · exact absurd hb2 hr1
        have hrw := fillF_restore rng f (gsetVal g (row * 9 + col) v)
          (nextRow row col) (nextCol col) pos (nextRow_le row col hrow) (nextCol_lt col)
          hlen1 hsuf1 hfb
        rw [hrw, gsetVal_zero_cancel g (row * 9 + col) v (hsuf _ hk81 (Nat.le_refl _))]
        exact ih g _ hglen hsuf hpre hmem2
    · rw [if_neg hv]
      have hvne : v ≠ vget S (row * 9 + col) := by
        intro hveq
        rw [hveq] at hv
        exact hv (target_is_valid hrow hcol hSfull hScons hsuf hpre)
      have hmem2 : vget S (row * 9 + col) ∈ vs := by
        rcases List.mem_cons.mp hmem with he | h2
        · exact absurd he.symm hvne
        · exact h2
      exact ih g pos hglen hsuf hpre hmem2

/-- Completeness of fill_grid: whenever a full consistent solution S
extends the already-filled prefix of the grid, the search succeeds, for
any random stream. -/
lemma fillF_complete (rng : Nat → Nat) (S : List Nat)
    (hSfull : FullV S) (hSrange : RangeOK S) (hScons : ConsistentV S) :
    ∀ (f : Nat) (g : Grid) (row col pos : Nat), row ≤ 9 → col < 9 → g.length = 81 →
      81 - (row * 9 + col) < f →
      (∀ j, j < 81 → row * 9 + col ≤ j → gval g j = 0) →
      (∀ j, j < 81 → j < row * 9 + col → gval g j = vget S j) →
      (fillF rng f g row col pos).1 = true
  | 0, _, _, _, _, _, _, _, hfuel, _, _ => absurd hfuel (by omega)
  | f + 1, g, row, col, pos, hrow, hcol, hglen, hfuel, hsuf, hpre => by
    rw [fillF_succ]
    by_cases h9 : row = 9
    · rw [if_pos h9]
    · rw [if_neg h9]
      have hrow9 : row < 9 := by omega
      apply fillGo_complete rng f S hSfull hScons row col hrow9 hcol ?_
        (shuffle9 rng pos) g (pos + 9) hglen hsuf hpre ?_
      · intro g2 r2 c2 p2 hgt h1 h2 h3 h4 h5
        exact fillF_complete rng S hSfull hSrange hScons f g2 r2 c2 p2 h1 h2 h3
          (by omega) h4 h5
      · rw [shuffle9_mem]
        refine ⟨Nat.one_le_iff_ne_zero.mpr (hSfull _ (by omega)), hSrange _ (by omega)⟩

/-! ### The solution generator: soundness of the search -/

/-- A completely and consistently filled 81-cell grid. -/
def GoodGrid (g : Grid) : Prop :=
  g.length = 81 ∧ FullV (vals g) ∧ RangeOK (vals g) ∧ ConsistentV (vals g)

lemma fillGo_sound (rng : Nat → Nat) (f : Nat) (row col : Nat)
    (hrow : row < 9) (hcol : col < 9)
    (hs1 : ∀ g2 p2, g2.length = 81 →
      (∀ j, j < 81 → row * 9 + col + 1 ≤ j → gval g2 j = 0) →
      (∀ j, j < 81 → j < row * 9 + col + 1 → 1 ≤ gval g2 j ∧ gval g2 j ≤ 9) →
      (∀ a b, a < 81 → b < 81 → a < row * 9 + col + 1 → b < row * 9 + col + 1 →
        Peers a b → gval g2 a ≠ gval g2 b) →
      (fillF rng f g2 (nextRow row col) (nextCol col) p2).1 = true →
      GoodGrid (fillF rng f g2 (nextRow row col) (nextCol col) p2).2.1) :
    ∀ (vs : List Nat) (g : Grid) (pos : Nat), g.length = 81 →
      (∀ v, v ∈ vs → 1 ≤ v ∧ v ≤ 9) →
      (∀ j, j < 81 → row * 9 + col ≤ j → gval g j = 0) →
      (∀ j, j < 81 → j < row * 9 + col → 1 ≤ gval g j ∧ gval g j ≤ 9) →
      (∀ a b, a < 81 → b < 81 → a < row * 9 + col → b < row * 9 + col →
        Peers a b → gval g a ≠ gval g b) →
      (fillGo (fillF rng f) row col vs g pos).1 = true →
      GoodGrid (fillGo (fillF rng f) row col vs g pos).2.1 := by
  intro vs
  induction vs with
  | nil =>
    intro g pos _ _ _ _ _ htrue
    exact Bool.noConfusion htrue
  | cons v vs ih =>
    intro g pos hglen hbs hsuf hpre hcons htrue
    rw [fillGo_cons] at htrue ⊢
    have hk81 : row * 9 + col < 81 := by omega
    by_cases hvd : is_valid g row col v = true
    · rw [if_pos hvd] at htrue ⊢
      obtain ⟨hv1, hv9⟩ := hbs v (List.mem_cons_self v vs)
      have hlen1 : (gsetVal g (row * 9 + col) v).length = 81 := by
        rw [gsetVal_length, hglen]
      have hsuf1 : ∀ j, j < 81 → row * 9 + col + 1 ≤ j →
          gval (gsetVal g (row * 9 + col) v) j = 0 := by
        intro j hj hge
        rw [gval_set, if_neg (fun hc2 => by omega)]
        exact hsuf j hj (by omega)
      by_cases hr1 :
          (fillF rng f (gsetVal g (row * 9 + col) v) (nextRow row col) (nextCol col) pos).1 =
            true
      · rw [if_pos hr1] at htrue ⊢
        have hvpeer : ∀ j, j < 81 → Peers (row * 9 + col) j → gval g j ≠ v := by
          have h2 := (is_validV_iff hrow hcol).mp (by rw [← is_valid_eq_V]; exact hvd)
          intro j hj hp
          have h3 := h2 j hj hp
          rw [vget_vals] at h3
          exact h3
        apply hs1 (gsetVal g (row * 9 + col) v) pos hlen1 hsuf1 ?_ ?_ hr1
        · intro j hj hlt
          by_cases hjk : j = row * 9 + col
          · subst hjk
            rw [gval_set, if_pos ⟨rfl, by omega⟩]
            exact ⟨hv1, hv9⟩
          · rw [gval_set, if_neg (fun hc2 => hjk hc2.1.symm)]
            exact hpre j hj (by omega)
        · intro a b ha hb2 hak hbk hpab
          by_cases hak2 : a = row * 9 + col
          · subst hak2
            have hbk2 : b < row * 9 + col := by
              rcases Nat.lt_or_ge b (row * 9 + col) with h | h
              · exact h
              · exact absurd (by omega : row * 9 + col = b) hpab.1
            rw [gval_set, if_pos ⟨rfl, by omega⟩, gval_set,
              if_neg (fun hc2 => by omega)]
            exact fun he => hvpeer b hb2 hpab he.symm
          · rw [gval_set, if_neg (fun hc2 => hak2 hc2.1.symm)]
            by_cases hbk2 : b = row * 9 + col
            · subst hbk2
              rw [gval_set, if_pos ⟨rfl, by omega⟩]
              exact hvpeer a ha (peers_symm hpab)
            · rw [gval_set, if_neg (fun hc2 => hbk2 hc2.1.symm)]
              exact hcons a b ha hb2 (by omega) (by omega) hpab
      · rw [if_neg hr1] at htrue ⊢
        have hfb :
            (fillF rng f (gsetVal g (row * 9 + col) v) (nextRow row col) (nextCol col) pos).1 =
              false := by
          cases hb2 :
            (fillF rng f (gsetVal g (row * 9 + col) v) (nextRow row col) (nextCol col) pos).1
          · rfl
          · exact absurd hb2 hr1
        have hsuf1b : ∀ j, j < 81 → nextRow row col * 9 + nextCol col ≤ j →
            gval (gsetVal g (row * 9 + col) v) j = 0 := by
          intro j hj hge
          rw [next_index row col hcol] at hge
          exact hsuf1 j hj hge
        have hrw := fillF_restore rng f (gsetVal g (row * 9 + col) v)
          (nextRow row col) (nextCol col) pos (nextRow_le row col hrow) (nextCol_lt col)
          hlen1 hsuf1b hfb
        rw [hrw, gsetVal_zero_cancel g (row * 9 + col) v (hsuf _ hk81 (Nat.le_refl _))]
          at htrue ⊢
        exact ih g _ hglen (fun w hw => hbs w (List.mem_cons_of_mem v hw))
          hsuf hpre hcons htrue
    · rw [if_neg hvd] at htrue ⊢
      exact ih g pos hglen (fun w hw => hbs w (List.mem_cons_of_mem v hw))
        hsuf hpre hcons htrue

/-- Soundness of fill_grid: a successful search starting from a validly
filled prefix ends in a complete, consistent grid. -/
lemma fillF_sound (rng : Nat → Nat) :
    ∀ (f : Nat) (g : Grid) (row col pos : Nat), row ≤ 9 → col < 9 → g.length = 81 →
      (∀ j, j < 81 → row * 9 + col ≤ j → gval g j = 0) →
      (∀ j, j < 81 → j < row * 9 + col → 1 ≤ gval g j ∧ gval g j ≤ 9) →
      (∀ a b, a < 81 → b < 81 → a < row * 9 + col → b < row * 9 + col →
        Peers a b → gval g a ≠ gval g b) →
      (fillF rng f g row col pos).1 = true →
      GoodGrid (fillF rng f g row col pos).2.1
  | 0, _, _, _, _, _, _, _, _, _, _, htrue => Bool.noConfusion htrue
  | f + 1, g, row, col, pos, hrow, hcol, hglen, hsuf, hpre, hcons, htrue => by
    rw [fillF_succ] at htrue ⊢
    by_cases h9 : row = 9
    · rw [if_pos h9]
      show GoodGrid g
      refine ⟨hglen, ?_, ?_, ?_⟩
      · intro i hi
        rw [vget_vals]
        have h2 := hpre i hi (by omega)
        omega
      · intro i hi
        rw [vget_vals]
        have h2 := hpre i hi (by omega)
        omega
      · intro i hi j hj hp _
        rw [vget_vals, vget_vals]
        exact hcons i j hi hj (by omega) (by omega) hp
    · rw [if_neg h9] at htrue ⊢
      have hrow9 : row < 9 := by omega
      apply fillGo_sound rng f row col hrow9 hcol ?_ (shuffle9 rng pos) g (pos + 9)
        hglen (fun w hw => shuffle9_mem.mp hw) hsuf hpre hcons htrue
      intro g2 p2 h1 h2 h3 h4 h5
      apply fillF_sound rng f g2 (nextRow row col) (nextCol col) p2
        (nextRow_le row col hrow9) (nextCol_lt col) h1 ?_ ?_ ?_ h5
      · intro j hj hge
        rw [next_index row col hcol] at hge
        exact h2 j hj hge
      · intro j hj hlt
        rw [next_index row col hcol] at hlt
        exact h3 j hj hlt
      · intro a b ha hb2 hak hbk hp
        rw [next_index row col hcol] at hak hbk
        exact h4 a b ha hb2 hak hbk hp

/-! ### C3: fill_grid produces a complete valid solution -/

lemma perm_of_good (s9 : List Nat) (hlen : s9.length = 9) (hnodup : s9.Nodup)
    (hsub : ∀ v, v ∈ s9 → 1 ≤ v ∧ v ≤ 9) : s9.Perm cands := by
  have hsub2 : s9 ⊆ cands := by
    intro v hv
    exact mem_cands_iff.mpr (hsub v hv)
  exact (List.Nodup.subperm hnodup hsub2).perm_of_length_le (by rw [hlen]; decide)

/-- Nine cells that are pairwise peers in a complete consistent grid hold
a permutation of {1..9}. -/
lemma genPerm (g : Grid) (hg : GoodGrid g) (idx : Nat → Nat)
    (hidx : ∀ t, t < 9 → idx t < 81)
    (hpeers : ∀ t u, t < 9 → u < 9 → t ≠ u → Peers (idx t) (idx u)) :
    ((List.range 9).map fun t => gval g (idx t)).Perm cands := by
  obtain ⟨hlen, hfull, hrange, hcons⟩ := hg
  apply perm_of_good
  · rw [List.length_map, List.length_range]
  · refine List.Nodup.map_on ?_ (List.nodup_range 9)
    intro t ht u hu hfe
    by_contra hne
    have ht9 := List.mem_range.mp ht
    have hu9 := List.mem_range.mp hu
    have h1 := hcons (idx t) (hidx t ht9) (idx u) (hidx u hu9) (hpeers t u ht9 hu9 hne)
      (hfull _ (hidx t ht9))
    rw [vget_vals, vget_vals] at h1
    exact h1 hfe
  · intro v hv
    obtain ⟨t, ht, rfl⟩ := List.mem_map.mp hv
    have ht9 := List.mem_range.mp ht
    have hf := hfull (idx t) (hidx t ht9)
    have hr := hrange (idx t) (hidx t ht9)
    rw [vget_vals] at hf hr
    omega

/-- C3: for every random stream (and any position in it), fill_grid called
with row = 0, col = 0 on the all-empty grid returns true, and on return
every cell is nonzero and every row, every column and every 3x3 box is a
permutation of {1..9}. -/
theorem fill_grid_complete_solution (rng : Nat → Nat) (pos fuel : Nat)
    (hfuel : 82 ≤ fuel) :
    (fillF rng fuel emptyGrid 0 0 pos).1 = true ∧
    (∀ i, i < 81 → gval (fillF rng fuel emptyGrid 0 0 pos).2.1 i ≠ 0) ∧
    (∀ row, row < 9 → RowPerm (fillF rng fuel emptyGrid 0 0 pos).2.1 row) ∧
    (∀ col, col < 9 → ColPerm (fillF rng fuel emptyGrid 0 0 pos).2.1 col) ∧
    (∀ b, b < 9 → BoxPerm (fillF rng fuel emptyGrid 0 0 pos).2.1 b) := by
  have hlen : emptyGrid.length = 81 := rfl
  have hsuf0 : ∀ j, j < 81 → gval emptyGrid j = 0 := by decide
  have htrue := fillF_complete rng solList (by decide) (by decide) (by decide)
    fuel emptyGrid 0 0 pos (by omega) (by omega) hlen (by omega)
    (fun j hj _ => hsuf0 j hj) (fun j _ hlt => absurd hlt (by omega))
  have hgood := fillF_sound rng fuel emptyGrid 0 0 pos (by omega) (by omega) hlen
    (fun j hj _ => hsuf0 j hj) (fun j _ hlt => absurd hlt (by omega))
    (fun a b _ _ hak _ _ => absurd hak (by omega)) htrue
  refine ⟨htrue, ?_, ?_, ?_, ?_⟩
  · intro i hi
    have h2 := hgood.2.1 i hi
    rw [vget_vals] at h2
    exact h2
  · intro row hrow
    unfold RowPerm
    apply genPerm _ hgood (fun c => row * 9 + c)
    · intro t ht
      show row * 9 + t < 81
      omega
    · intro t u ht hu hne
      show Peers (row * 9 + t) (row * 9 + u)
      exact ⟨by omega, Or.inl (by omega)⟩
  · intro col hcol
    unfold ColPerm
    apply genPerm _ hgood (fun r => r * 9 + col)
    · intro t ht
      show t * 9 + col < 81
      omega
    · intro t u ht hu hne
      show Peers (t * 9 + col) (u * 9 + col)
      exact ⟨by omega, Or.inr (Or.inl (by omega))⟩
  · intro b hb
    unfold BoxPerm
    apply genPerm _ hgood (fun t => (3 * (b / 3) + t / 3) * 9 + (3 * (b % 3) + t % 3))
    · intro t ht
      show (3 * (b / 3) + t / 3) * 9 + (3 * (b % 3) + t % 3) < 81
      omega
    · intro t u ht hu hne
      show Peers ((3 * (b / 3) + t / 3) * 9 + (3 * (b % 3) + t % 3))
        ((3 * (b / 3) + u / 3) * 9 + (3 * (b % 3) + u % 3))
      exact ⟨by omega, Or.inr (Or.inr ⟨by omega, by omega⟩)⟩

theorem fill_grid_complete_solution_witness :
    82 ≤ 82 ∧ (fillF (fun _ => 0) 82 emptyGrid 0 0 0).1 = true :=
  ⟨by decide, (fill_grid_complete_solution (fun _ => 0) 0 82 (by decide)).1⟩

end Sudoku
